import Mathlib

set_option maxHeartbeats 1000000

namespace SMLVerify

/-!
Shallow embedding of `Source/SML/mod/ModHandler.cpp` (mod resolution and
caching engine of the mod loader).  Maps (`std::unordered_map`, `std::map`)
are embedded as association lists kept in insertion order; wide strings as
`String` (file names as `List Char` where character-level operations of the
source matter); byte buffers as `List Nat`; the file system visible to the
cache as an association list from paths to contents.  Components of the
repository that are not among the sources (`util/TopologicalSort.h`,
`ModInfo.cpp`) are modelled from the spec and marked as such on their
definitions.
-/

/-- Association-list lookup: the embedding of a `find` on one of the
source's map members (`loadingEntries`, `modIndices`, `modByIndex`). -/
def assocLookup {κ α : Type} [DecidableEq κ] : List (κ × α) → κ → Option α
  | [], _ => none
  | p :: rest, k => if p.1 = k then some p.2 else assocLookup rest k

/-- Association-list update: write-back through `operator[]` — replace the
binding if the key is present, append a fresh binding otherwise. -/
def assocSet {κ α : Type} [DecidableEq κ] : List (κ × α) → κ → α → List (κ × α)
  | [], k, v => [(k, v)]
  | p :: rest, k, v => if p.1 = k then (k, v) :: rest else p :: assocSet rest k v

/-- Semantic version (major, minor, patch), the shape of `FVersion` as the
spec's data model describes it (`ModInfo.cpp` is not among the sources). -/
structure FVersion where
  major : Nat
  minor : Nat
  patch : Nat
deriving DecidableEq, Repr

/-- Textual form of a version, used when the source formats diagnostics. -/
def FVersion.string (v : FVersion) : String :=
  toString v.major ++ "." ++ toString v.minor ++ "." ++ toString v.patch

/-- Lexicographic comparison of semantic versions. -/
def FVersion.le (a b : FVersion) : Bool :=
  decide (a.major < b.major) ||
    (a.major == b.major &&
      (decide (a.minor < b.minor) ||
        (a.minor == b.minor && decide (a.patch ≤ b.patch))))

/-- Version range: the predicate over versions (the source's `matches`
member, called `matchesVersion` here because `matches` is reserved in Lean)
together with its textual form `text` (the source calls `.string()` on it
when formatting diagnostics).  A range value is carried as data in
descriptors. -/
structure FVersionRange where
  text : String
  matchesVersion : FVersion → Bool

/-- The range `>= v`, the usual reading of a plain lower-bound range
expression such as the scenario's ">=1.0.0". -/
def versionAtLeast (v : FVersion) : FVersionRange :=
  { text := ">=" ++ v.string, matchesVersion := fun w => FVersion.le v w }

/-- Modelled from the spec: the `FVersionRange` single-string constructor
used at `createRawModLoadingEntry` (`FVersionRange(TEXT("1.0.0"))`) lives in
`ModInfo.cpp`, which is not among the sources.  Its `matches` predicate is
never consulted on the `@ORDER:LAST` marker binding (the marker never names
a registered valid entry, and the validity test short-circuits first), so
only the textual form matters to the embedded behaviour. -/
def versionRangeOfString (s : String) : FVersionRange :=
  { text := s, matchesVersion := fun _ => true }

/-- Mod descriptor (`FModInfo`): fields as used by `ModHandler.cpp` and as
the spec's data model lists them.  The dependency maps are association
lists from mod id to version range. -/
structure FModInfo where
  modid : String := ""
  name : String := ""
  version : FVersion := ⟨0, 0, 0⟩
  description : String := ""
  authors : List String := []
  dependencies : List (String × FVersionRange) := []
  optionalDependencies : List (String × FVersionRange) := []

/-- Loading entry (`FModLoadingEntry`): fields as used by `ModHandler.cpp`.
A default-constructed entry (what `operator[]` inserts for a missing key)
has `isValid = false` and everything else empty. -/
structure FModLoadingEntry where
  isValid : Bool := false
  modInfo : FModInfo := {}
  virtualModFilePath : String := ""
  dllFilePath : String := ""
  pakFilePaths : List String := []
  isRawMod : Bool := false

instance : Inhabited FModLoadingEntry := ⟨{}⟩

/-- The global `INVALID_ENTRY{ false }` returned on rejected registrations. -/
def INVALID_ENTRY : FModLoadingEntry := {}

/-- Mutable state of `FModHandler` that the discovery / dependency stages
touch: the entry map, the diagnostics list and the final sorted list. -/
structure HandlerState where
  loadingEntries : List (String × FModLoadingEntry) := []
  loadingProblems : List String := []
  sortedModLoadList : List FModLoadingEntry := []

/-- Index of the last character satisfying `p` (`find_last_of`), `none`
standing for `npos`. -/
def findLastIdx (p : Char → Bool) (s : List Char) : Option Nat :=
  (List.range s.length).foldl
    (fun acc i => if p (s.getD i 'A') then some i else acc) none

/-- The extension of a file name including its dot (`path::extension`). -/
def extensionOf (fileName : List Char) : List Char :=
  match findLastIdx (fun c => c == '.') fileName with
  | some i => fileName.drop i
  | none => []

/-- Embedding of `getModIdFromFile` (ModHandler.cpp lines 24-40), operating
on the file name: strip the extension; for a `.dll` take the piece before
the first '-'; for a `.pak` erase from the last occurrence of either
character '_' or 'p' onwards when that occurrence sits exactly two
characters before the end (the source's `find_last_of(TEXT("_p")) ==
modId.size() - 2` test, written here as `i + 2 == length` to match the
unsigned arithmetic for every length ≥ 2). -/
def getModIdFromFile (fileName : List Char) : List Char :=
  let modId := match findLastIdx (fun c => c == '.') fileName with
    | some i => fileName.take i
    | none => fileName
  if extensionOf fileName == ".dll".toList then
    modId.take (modId.findIdx (fun c => c == '-'))
  else if extensionOf fileName == ".pak".toList then
    match findLastIdx (fun c => c == '_' || c == 'p') modId with
    | some i => if i + 2 == modId.length then modId.take i else modId
    | none => modId
  else modId

/-! Extraction cache (`hashArchiveFileContents`, `generateTempFilePath`,
`extractArchiveObject`).  The content hash (picosha2, an external library)
is a parameter `hash`; an archive is an association list from internal
paths to byte contents ("list file by name, read its bytes"). -/

/-- Errors thrown by `extractArchiveObject` (the `std::invalid_argument`
messages of lines 85, 114, 117, 119). -/
inductive ExtractError
  | missingObject
  | duplicateModule
  | coreModUnsupported
  | unknownObjectType
deriving DecidableEq, Repr

/-- File system visible to extraction: path ↦ byte contents. -/
def FileSys := List (String × List Nat)

/-- Read a file's bytes. -/
def fsLookup (fs : FileSys) (p : String) : Option (List Nat) := assocLookup fs p

/-- `remove(filePath)`. -/
def fsRemove (fs : FileSys) (p : String) : FileSys :=
  fs.filter (fun q => q.1 != p)

/-- `extractArchiveFile`: create/truncate the file with the given bytes. -/
def fsWrite (fs : FileSys) (p : String) (bytes : List Nat) : FileSys :=
  assocSet fs p bytes

/-- `hashFileContents`: hash of the on-disk bytes at a path (the source
only calls it on existing files; an absent file reads as empty). -/
def hashFileContents (hash : List Nat → String) (fs : FileSys) (p : String) : String :=
  hash ((fsLookup fs p).getD [])

/-- `generateTempFilePath`: the cache location named by a content digest. -/
def generateTempFilePath (fileHash : String) : String :=
  "cache/" ++ fileHash

/-- Modelled from the spec: `getModConfigFilePath` is not among the
sources; §6 describes a per-mod config directory holding one file per
modId. -/
def getModConfigFilePath (modid : String) : String :=
  "configs/" ++ modid

/-- Result of a successful `extractArchiveObject`: the file system after
the call, the updated loading entry, the path the object was routed to,
and whether `extractArchiveFile` performed a disk write. -/
structure ExtractOutcome where
  fs : FileSys
  entry : FModLoadingEntry
  cachePath : String
  wroteFile : Bool

/-- The cache block of `extractArchiveObject` (lines 100-109): compute the
content digest of the object's bytes, and unpack them into the
digest-named cache location only when the cached file is absent or its
on-disk bytes no longer hash to the digest (removing the broken file
first).  Returns the file system afterwards, the cache path, and whether
the write ran. -/
def extractToCache (hash : List Nat → String) (fs : FileSys) (bytes : List Nat) :
    FileSys × String × Bool :=
  let fileHash := hash bytes
  let filePath := generateTempFilePath fileHash
  if (fsLookup fs filePath).isNone || fileHash != hashFileContents hash fs filePath then
    (fsWrite (fsRemove fs filePath) filePath bytes, filePath, true)
  else (fs, filePath, false)

/-- Embedding of `extractArchiveObject` (ModHandler.cpp lines 82-121):
look the object up in the archive; route `config` to the fixed per-mod
path (first-write-wins); hash every other object and re-extract through
the cache block; then dispatch on the declared type.  (On the
`duplicateModule` and later errors the C++ code has already written the
cache file before throwing; the error results here drop that file-system
change, which no claim observes.) -/
def extractArchiveObject (hash : List Nat → String) (archive : List (String × List Nat))
    (objectType : String) (archivePath : String) (loadingEntry : FModLoadingEntry)
    (fs : FileSys) : Except ExtractError ExtractOutcome :=
  match assocLookup archive archivePath with
  | none => .error .missingObject
  | some bytes =>
    if objectType == "config" then
      let configFilePath := getModConfigFilePath loadingEntry.modInfo.modid
      if (fsLookup fs configFilePath).isNone then
        .ok ⟨fsWrite fs configFilePath bytes, loadingEntry, configFilePath, true⟩
      else
        .ok ⟨fs, loadingEntry, configFilePath, false⟩
    else
      let r := extractToCache hash fs bytes
      if objectType == "pak" then
        .ok ⟨r.1, { loadingEntry with pakFilePaths := loadingEntry.pakFilePaths ++ [r.2.1] },
             r.2.1, r.2.2⟩
      else if objectType == "sml_mod" then
        if loadingEntry.dllFilePath != "" then .error .duplicateModule
        else .ok ⟨r.1, { loadingEntry with dllFilePath := r.2.1 }, r.2.1, r.2.2⟩
      else if objectType == "core_mod" then .error .coreModUnsupported
      else .error .unknownObjectType

/-! Registration (`createLoadingEntry`, `createRawModLoadingEntry`,
`checkAndNotifyRawMod`, `constructDllMod`, `constructPakMod`). -/

/-- The duplicate-id diagnostic of lines 498-499, naming the mod id, the
new file path and the file path of the entry already registered. -/
def dupModIdMessage (modid newPath oldPath : String) : String :=
  "Found duplicate mods with same mod ID " ++ modid ++ ": " ++ newPath ++ " and " ++ oldPath

/-- The raw-conflict diagnostic of lines 521-522. -/
def rawConflictMessage (filePath : String) : String :=
  "Found raw mod file conflicting with packed mod: " ++ filePath

/-- The production-mode raw-mod rejection diagnostic of line 487. -/
def rawRejectedMessage (filePath : String) : String :=
  "Found unsupported raw mod file: " ++ filePath

/-- Embedding of `FModHandler::createLoadingEntry` (lines 495-508): a
valid entry already under this modId records one duplicate diagnostic and
rejects the candidate; otherwise the (possibly default-inserted) slot is
made valid with the new descriptor and source path. -/
def createLoadingEntry (st : HandlerState) (modInfo : FModInfo) (filePath : String) :
    HandlerState × FModLoadingEntry :=
  let e0 := (assocLookup st.loadingEntries modInfo.modid).getD {}
  if e0.isValid then
    ({ st with loadingProblems := st.loadingProblems ++
        [dupModIdMessage modInfo.modid filePath e0.virtualModFilePath] }, INVALID_ENTRY)
  else
    let e := { e0 with isValid := true, modInfo := modInfo, virtualModFilePath := filePath }
    ({ st with loadingEntries := assocSet st.loadingEntries modInfo.modid e }, e)

/-- Modelled from the spec: `FModInfo::createDummyInfo` lives in
`ModInfo.cpp`, which is not among the sources; §4.4 and §4.6 describe it
as a synthetic dummy descriptor with no dependencies and a fixed
version. -/
def createDummyInfo (modid : String) : FModInfo :=
  { modid := modid, name := modid, version := ⟨1, 0, 0⟩ }

/-- Embedding of `FModHandler::createRawModLoadingEntry` (lines 511-526):
an invalid (or absent) slot is initialised as a raw entry carrying the
dummy descriptor plus the `@ORDER:LAST` marker inserted into its required
dependencies; afterwards, if the slot is not a raw entry (a packed mod
owns the id) a conflict diagnostic is recorded and the file rejected. -/
def createRawModLoadingEntry (st : HandlerState) (modId filePath : String) :
    HandlerState × FModLoadingEntry :=
  let e0 := (assocLookup st.loadingEntries modId).getD {}
  let initInfo : FModInfo :=
    { createDummyInfo modId with
      dependencies := (createDummyInfo modId).dependencies ++
        [("@ORDER:LAST", versionRangeOfString "1.0.0")] }
  let e1 := if !e0.isValid then
      { e0 with
        isValid := true
        modInfo := initInfo
        virtualModFilePath := filePath
        isRawMod := true }
    else e0
  let st1 := { st with loadingEntries := assocSet st.loadingEntries modId e1 }
  if !e1.isRawMod then
    ({ st1 with loadingProblems := st1.loadingProblems ++ [rawConflictMessage filePath] },
     INVALID_ENTRY)
  else (st1, e1)

/-- Embedding of `checkAndNotifyRawMod` (lines 483-493): raw mods are
accepted only when the development flag (`debugLogOutput`) is set. -/
def checkAndNotifyRawMod (debugLogOutput : Bool) (st : HandlerState) (filePath : String) :
    HandlerState × Bool :=
  if !debugLogOutput then
    ({ st with loadingProblems := st.loadingProblems ++ [rawRejectedMessage filePath] }, false)
  else (st, true)

/-- Embedding of `FModHandler::constructDllMod` (lines 450-456). -/
def constructDllMod (debugLogOutput : Bool) (st : HandlerState) (filePath : List Char) :
    HandlerState :=
  let r0 := checkAndNotifyRawMod debugLogOutput st (String.mk filePath)
  if !r0.2 then r0.1 else
  let modId := String.mk (getModIdFromFile filePath)
  let r1 := createRawModLoadingEntry r0.1 modId (String.mk filePath)
  if !r1.2.isValid then r1.1
  else
    let e2 := { r1.2 with dllFilePath := String.mk filePath }
    { r1.1 with loadingEntries := assocSet r1.1.loadingEntries modId e2 }

/-- Embedding of `FModHandler::constructPakMod` (lines 458-464). -/
def constructPakMod (debugLogOutput : Bool) (st : HandlerState) (filePath : List Char) :
    HandlerState :=
  let r0 := checkAndNotifyRawMod debugLogOutput st (String.mk filePath)
  if !r0.2 then r0.1 else
  let modId := String.mk (getModIdFromFile filePath)
  let r1 := createRawModLoadingEntry r0.1 modId (String.mk filePath)
  if !r1.2.isValid then r1.1
  else
    let e2 := { r1.2 with pakFilePaths := r1.2.pakFilePaths ++ [String.mk filePath] }
    { r1.1 with loadingEntries := assocSet r1.1.loadingEntries modId e2 }

/-! Dependency resolution and sorting (`iterateDependencies`,
`FModHandler::checkDependencies`, `finalizeSortingResults`,
`populateSortedModList`). -/

/-- Modelled from the spec: `SML::TopologicalSort::DirectedGraph` lives in
`util/TopologicalSort.h`, which is not among the sources; §3 describes the
graph as dense integer nodes with directed "requires" edges from dependent
to dependency. -/
structure DirectedGraph where
  nodes : List Nat := []
  edges : List (Nat × Nat) := []

/-- Add a node (`addNode`). -/
def DirectedGraph.addNode (g : DirectedGraph) (n : Nat) : DirectedGraph :=
  { g with nodes := g.nodes ++ [n] }

/-- Add a directed edge dependent → dependency (`addEdge`). -/
def DirectedGraph.addEdge (g : DirectedGraph) (a b : Nat) : DirectedGraph :=
  { g with edges := g.edges ++ [(a, b)] }

/-- Dependencies of a node: targets of its outgoing edges. -/
def DirectedGraph.deps (g : DirectedGraph) (n : Nat) : List Nat :=
  (g.edges.filter (fun e => e.1 == n)).map (fun e => e.2)

/-- The reason strings of line 153. -/
def notInstalledReason : String := "not installed"

/-- The version-mismatch reason string of line 153. -/
def unsupportedVersionReason (v : FVersion) : String :=
  "unsupported version: " ++ v.string

/-- The dependency-failure diagnostic of line 154, naming the requirer,
the required id, the required range and the reason. -/
def depFailMessage (selfModid depId : String) (range : FVersionRange) (reason : String) : String :=
  selfModid ++ " requires " ++ depId ++ "(" ++ range.text ++ "): " ++ reason

/-- Header pushed at line 379 before the collected failures. -/
def missingDepsHeader : String := "Found missing dependencies:"

/-- The cycle diagnostic of line 392. -/
def cycleMessage (modid : String) : String :=
  "Cycle dependency found in sorting graph at modid: " ++ modid

/-- Embedding of `iterateDependencies` (lines 141-160): for each
(depModId, range) pair, a dependency that is not a registered valid entry,
or whose version the range does not match, produces a failure message that
is appended to the fatal list only when the pair comes from the required
map (`optional = false`); a satisfied dependency adds the edge
requirer → dependency.  The C++ `loadingEntries[pair.first]` lookup
default-inserts an invalid entry for a missing key; the inserted entry is
indistinguishable from an absent one for every later read, so the
embedding looks up without inserting. -/
def iterateDependencies (loadingEntries : List (String × FModLoadingEntry))
    (modIndices : List (String × Nat)) (selfInfo : FModInfo)
    (missingDependencies : List String) (sortGraph : DirectedGraph)
    (dependencies : List (String × FVersionRange)) (optional : Bool) :
    List String × DirectedGraph :=
  match dependencies with
  | [] => (missingDependencies, sortGraph)
  | pair :: rest =>
    let dependencyEntry := (assocLookup loadingEntries pair.1).getD {}
    let depInfo := dependencyEntry.modInfo
    if !dependencyEntry.isValid || !pair.2.matchesVersion depInfo.version then
      let reason := if dependencyEntry.isValid then unsupportedVersionReason depInfo.version
                    else notInstalledReason
      let message := depFailMessage selfInfo.modid pair.1 pair.2 reason
      iterateDependencies loadingEntries modIndices selfInfo
        (if !optional then missingDependencies ++ [message] else missingDependencies)
        sortGraph rest optional
    else
      iterateDependencies loadingEntries modIndices selfInfo missingDependencies
        (sortGraph.addEdge ((assocLookup modIndices selfInfo.modid).getD 0)
          ((assocLookup modIndices depInfo.modid).getD 0)) rest optional

/-- Indices 1..N assigned to the entry keys in registration order (the
`currentIdx++` loop of lines 360-368). -/
def indexKeys : Nat → List String → List (Nat × String)
  | _, [] => []
  | i, k :: rest => (i, k) :: indexKeys (i + 1) rest

/-- `modIndices`: modId ↦ node index. -/
def modIndicesOf (keys : List String) : List (String × Nat) :=
  (indexKeys 1 keys).map (fun p => (p.2, p.1))

/-- `modByIndex`: node index ↦ modId. -/
def modByIndexOf (keys : List String) : List (Nat × String) :=
  indexKeys 1 keys

/-- The node list 1..N added by the same loop. -/
def graphNodesOf (keys : List String) : List Nat :=
  (indexKeys 1 keys).map (fun p => p.1)

/-- The per-entry loop of lines 372-376: required dependencies first, then
optional ones, threading the fatal list and the graph. -/
def iterateAllDependencies (loadingEntries : List (String × FModLoadingEntry))
    (modIndices : List (String × Nat)) (allEntries : List FModLoadingEntry)
    (missing : List String) (g : DirectedGraph) : List String × DirectedGraph :=
  match allEntries with
  | [] => (missing, g)
  | e :: rest =>
    let r1 := iterateDependencies loadingEntries modIndices e.modInfo missing g
      e.modInfo.dependencies false
    let r2 := iterateDependencies loadingEntries modIndices e.modInfo r1.1 r1.2
      e.modInfo.optionalDependencies true
    iterateAllDependencies loadingEntries modIndices rest r2.1 r2.2

/-- The graph-construction half of `FModHandler::checkDependencies`
(lines 355-376): the fatal missing-dependency list and the dependency
graph built over all registered entries. -/
def buildSortGraph (st : HandlerState) : List String × DirectedGraph :=
  let keys := st.loadingEntries.map (fun p => p.1)
  iterateAllDependencies st.loadingEntries (modIndicesOf keys)
    (st.loadingEntries.map (fun p => p.2))
    [] { nodes := graphNodesOf keys, edges := [] }

/-- Modelled from the spec: `SML::TopologicalSort::topologicalSort` lives
in `util/TopologicalSort.h`, which is not among the sources.  §4.6: a
deterministic topological sort in which every dependency precedes its
dependents, ties broken by original registration order — at every step the
earliest-registered node all of whose dependencies are already emitted is
appended; when no node qualifies the sort fails as a detected cycle,
reporting one implicated node (taken here as the first remaining one). -/
def topologicalSortAux (deps : Nat → List Nat) :
    Nat → List Nat → List Nat → Except Nat (List Nat)
  | 0, emitted, remaining =>
    if remaining.isEmpty then .ok emitted else .error (remaining.headD 0)
  | fuel + 1, emitted, remaining =>
    if remaining.isEmpty then .ok emitted else
    match remaining.find? (fun n => (deps n).all (fun d => !remaining.contains d)) with
    | none => .error (remaining.headD 0)
    | some n => topologicalSortAux deps fuel (emitted ++ [n]) (remaining.erase n)

/-- Modelled from the spec: entry point of the sort, over the graph's
node list in registration order. -/
def topologicalSort (g : DirectedGraph) : Except Nat (List Nat) :=
  topologicalSortAux g.deps g.nodes.length [] g.nodes

/-- The `dependencies.find(TEXT("@ORDER:LAST"))` test of line 170. -/
def hasOrderLastMark (e : FModLoadingEntry) : Bool :=
  (assocLookup e.modInfo.dependencies "@ORDER:LAST").isSome

/-- The double lookup `loadingEntries[modByIndex[modIndex]]` used by the
finalization and population passes (an absent key reads as the invalid
default entry). -/
def entryByIndex (modByIndex : List (Nat × String))
    (loadingEntries : List (String × FModLoadingEntry)) (modIndex : Nat) : FModLoadingEntry :=
  (assocLookup loadingEntries ((assocLookup modByIndex modIndex).getD "")).getD {}

/-- Embedding of `finalizeSortingResults` (lines 162-177), kept exactly as
written: the first loop records the positions `i` at which the sorted
entry carries the `@ORDER:LAST` marker; the second loop then, for each
recorded value, erases every element of `sortedIndices` equal to that
value and appends the value at the end. -/
def finalizeSortingResults (modByIndex : List (Nat × String))
    (loadingEntries : List (String × FModLoadingEntry))
    (sortedIndices : List Nat) : List Nat :=
  let modsToMoveInTheEnd := (List.range sortedIndices.length).filter
    (fun i => hasOrderLastMark (entryByIndex modByIndex loadingEntries (sortedIndices.getD i 0)))
  modsToMoveInTheEnd.foldl
    (fun acc modIndex => (acc.filter (fun x => x != modIndex)) ++ [modIndex]) sortedIndices

/-- Embedding of `populateSortedModList` (lines 179-187). -/
def populateSortedModList (modByIndex : List (Nat × String))
    (loadingEntries : List (String × FModLoadingEntry)) (sortedIndices : List Nat)
    (sortedModLoadingList : List FModLoadingEntry) : List FModLoadingEntry :=
  sortedModLoadingList ++ sortedIndices.map (entryByIndex modByIndex loadingEntries)

/-- Embedding of `FModHandler::checkDependencies` (lines 355-401): build
the graph over every registered entry; a non-empty fatal list aborts with
the batch of messages before any sorting; a cycle aborts with its
diagnostic; otherwise the sorted indices are finalized, the sorted entry
list is populated and the entry map is cleared. -/
def checkDependencies (st : HandlerState) : HandlerState :=
  let keys := st.loadingEntries.map (fun p => p.1)
  let modByIndex := modByIndexOf keys
  let r := buildSortGraph st
  if !r.1.isEmpty then
    { st with loadingProblems := st.loadingProblems ++ missingDepsHeader :: r.1 }
  else
    match topologicalSort r.2 with
    | .error cycleNode =>
      { st with loadingProblems := st.loadingProblems ++
          [cycleMessage ((assocLookup modByIndex cycleNode).getD "")] }
    | .ok sortedIndices =>
      let fin := finalizeSortingResults modByIndex st.loadingEntries sortedIndices
      { st with
        sortedModLoadList := populateSortedModList modByIndex st.loadingEntries fin
          st.sortedModLoadList,
        loadingEntries := [] }

/-- Fuel-bounded reachability along the dependency edges, used to state
that two concrete nodes have no ordering relationship. -/
def reachableWithin (edges : List (Nat × Nat)) : Nat → Nat → Nat → Bool
  | 0, a, b => a == b
  | fuel + 1, a, b =>
    a == b || (edges.filter (fun e => e.1 == a)).any (fun e => reachableWithin edges fuel e.2 b)

/-! Consumer-facing queries after a successful load (`FModHandler::loadMods`
population loop of lines 294-309, `getLoadedMods`, `isModLoaded`,
`GetLoadedMod`). -/

/-- Loaded-mod container: the descriptor piece of `FModContainer` (the
module-interface handle is an external collaborator object). -/
structure FModContainer where
  modInfo : FModInfo

/-- The three loaded-mod collections of `FModHandler`. -/
structure LoadedState where
  loadedMods : List (String × FModContainer) := []
  loadedModsModIDs : List String := []
  loadedModsList : List FModContainer := []

/-- `std::map::insert`: keeps an existing binding, never overwrites. -/
def mapInsert (m : List (String × FModContainer)) (k : String) (v : FModContainer) :
    List (String × FModContainer) :=
  if (assocLookup m k).isSome then m else m ++ [(k, v)]

/-- Embedding of the mod-list population loop of `loadMods` (lines
294-309): walk the sorted load list, build a container per entry and
record it in the map, the ordered id list and the container list. -/
def populateModList : List FModLoadingEntry → LoadedState → LoadedState
  | [], st => st
  | e :: rest, st =>
    let modContainer : FModContainer := ⟨e.modInfo⟩
    populateModList rest
      { loadedMods := mapInsert st.loadedMods e.modInfo.modid modContainer,
        loadedModsModIDs := st.loadedModsModIDs ++ [e.modInfo.modid],
        loadedModsList := st.loadedModsList ++ [modContainer] }

/-- `FModHandler::getLoadedMods` (line 231). -/
def getLoadedMods (st : LoadedState) : List String :=
  st.loadedModsModIDs

/-- `FModHandler::isModLoaded` (line 235). -/
def isModLoaded (st : LoadedState) (modId : String) : Bool :=
  (assocLookup st.loadedMods modId).isSome

/-- `FModHandler::GetLoadedMod` (lines 239-245): `none` embeds the
`NotLoaded` exception. -/
def GetLoadedMod (st : LoadedState) (modId : String) : Option FModContainer :=
  assocLookup st.loadedMods modId

/-! Concrete inputs used by counterexample and failing-input theorems. -/

/-- A version range matching every version. -/
def anyVersionRange : FVersionRange := { text := "*", matchesVersion := fun _ => true }

/-- Entry A, valid, requiring C. -/
def c1entryA : FModLoadingEntry :=
  { isValid := true, modInfo := { modid := "A", dependencies := [("C", anyVersionRange)] } }

/-- Entry B, valid, no dependencies. -/
def c1entryB : FModLoadingEntry := { isValid := true, modInfo := { modid := "B" } }

/-- Entry C, valid, no dependencies. -/
def c1entryC : FModLoadingEntry := { isValid := true, modInfo := { modid := "C" } }

/-- Registration order A, B, C; the only dependency is A → C. -/
def c1state : HandlerState :=
  { loadingEntries := [("A", c1entryA), ("B", c1entryB), ("C", c1entryC)] }

/-- Descriptor of entry "B", carrying the `@ORDER:LAST` marker. -/
def c2infoB : FModInfo :=
  { modid := "B", dependencies := [("@ORDER:LAST", versionRangeOfString "1.0.0")] }

/-- The two-entry map for the finalization counterexample. -/
def c2entries : List (String × FModLoadingEntry) :=
  [("A", { isValid := true, modInfo := { modid := "A" } }),
   ("B", { isValid := true, modInfo := c2infoB })]

/-- Index map for the two entries above. -/
def c2modByIndex : List (Nat × String) := [(1, "A"), (2, "B")]

/-- M1: version 1.2.0, no dependencies. -/
def m1Info : FModInfo := { modid := "M1", version := ⟨1, 2, 0⟩ }

/-- M2: requires M1 at >= 1.0.0. -/
def m2Info : FModInfo :=
  { modid := "M2", version := ⟨1, 0, 0⟩, dependencies := [("M1", versionAtLeast ⟨1, 0, 0⟩)] }

/-- The spec scenario's input: M1 and M2 registered as packaged mods, M3
discovered as a raw asset-package mod in development mode. -/
def c3state : HandlerState :=
  constructPakMod true
    ((createLoadingEntry ((createLoadingEntry {} m1Info "mods/M1.smod").1)
        m2Info "mods/M2.smod").1)
    "M3.pak".toList

/-- Descriptor of entry "E1": one optional dependency on the unregistered
mod "Ghost". -/
def c7infoE1 : FModInfo :=
  { modid := "E1", optionalDependencies := [("Ghost", versionAtLeast ⟨1, 0, 0⟩)] }

/-- A single valid entry with one unsatisfiable optional dependency. -/
def c7state : HandlerState :=
  { loadingEntries := [("E1", { isValid := true, modInfo := c7infoE1 })] }

/-- A dynamic-module raw mod and an asset-package raw mod under the same
inferred id "Foo", both discovered in development mode. -/
def c8state : HandlerState :=
  constructPakMod true (constructDllMod true {} "Foo-Win64.dll".toList) "Foo.pak".toList

/-- Descriptor of entry "E2": one required dependency on the unregistered
mod "Ghost". -/
def c7binfoE2 : FModInfo :=
  { modid := "E2", dependencies := [("Ghost", versionAtLeast ⟨1, 0, 0⟩)] }

/-- Entry "E2" as registered. -/
def c7bentry : FModLoadingEntry := { isValid := true, modInfo := c7binfoE2 }

/-- A single valid entry with one unsatisfiable required dependency. -/
def c7bstate : HandlerState := { loadingEntries := [("E2", c7bentry)] }

/-! Theorems.  Helper lemmas first, then one theorem per claim (plus its
witness or counterexample where required). -/

/-- Looking up the key just set finds the value just set. -/
theorem assocLookup_assocSet_self {κ α : Type} [DecidableEq κ]
    (l : List (κ × α)) (k : κ) (v : α) :
    assocLookup (assocSet l k v) k = some v := by
  induction l with
  | nil => simp [assocSet, assocLookup]
  | cons p rest ih =>
    by_cases hp : p.1 = k
    · simp [assocSet, assocLookup, hp]
    · simp [assocSet, assocLookup, hp, ih]

/-- The cache block always routes to the digest-named location. -/
theorem extractToCache_path (hash : List Nat → String) (fs : FileSys) (bytes : List Nat) :
    (extractToCache hash fs bytes).2.1 = generateTempFilePath (hash bytes) := by
  unfold extractToCache
  by_cases hc : ((fsLookup fs (generateTempFilePath (hash bytes))).isNone ||
      hash bytes != hashFileContents hash fs (generateTempFilePath (hash bytes))) = true
  · rw [if_pos hc]
  · rw [if_neg hc]

/-- After the cache block runs, the digest-named cache location holds
bytes that hash to the digest. -/
theorem extractToCache_verified (hash : List Nat → String) (fs : FileSys) (bytes : List Nat) :
    ∃ stored, fsLookup (extractToCache hash fs bytes).1 (generateTempFilePath (hash bytes))
        = some stored ∧ hash stored = hash bytes := by
  unfold extractToCache
  by_cases hc : ((fsLookup fs (generateTempFilePath (hash bytes))).isNone ||
      hash bytes != hashFileContents hash fs (generateTempFilePath (hash bytes))) = true
  · rw [if_pos hc]
    exact ⟨bytes, assocLookup_assocSet_self _ _ _, rfl⟩
  · rw [if_neg hc]
    have hc' := Bool.of_not_eq_true hc
    rw [Bool.or_eq_false_iff] at hc'
    obtain ⟨hnone, hbne⟩ := hc'
    cases hfl : fsLookup fs (generateTempFilePath (hash bytes)) with
    | none => rw [hfl] at hnone; simp at hnone
    | some stored =>
      refine ⟨stored, rfl, ?_⟩
      rw [bne_eq_false_iff_eq] at hbne
      unfold hashFileContents at hbne
      rw [hfl] at hbne
      simp only [Option.getD_some] at hbne
      exact hbne.symm

/-- A cache entry that verifies is reused as is: no removal, no write. -/
theorem extractToCache_hit (hash : List Nat → String) (fs : FileSys) (bytes stored : List Nat)
    (hs : fsLookup fs (generateTempFilePath (hash bytes)) = some stored)
    (hh : hash stored = hash bytes) :
    extractToCache hash fs bytes = (fs, generateTempFilePath (hash bytes), false) := by
  unfold extractToCache
  rw [if_neg ?_]
  intro hc
  rw [Bool.or_eq_true] at hc
  rcases hc with hc | hc
  · rw [hs] at hc; simp at hc
  · unfold hashFileContents at hc
    rw [hs] at hc
    simp only [Option.getD_some] at hc
    rw [hh] at hc
    simp at hc

/-- An absent or corrupt cache entry is removed and rewritten. -/
theorem extractToCache_update (hash : List Nat → String) (fs : FileSys) (bytes : List Nat)
    (hmiss : ((fsLookup fs (generateTempFilePath (hash bytes))).isNone ||
        hash bytes != hashFileContents hash fs (generateTempFilePath (hash bytes))) = true) :
    extractToCache hash fs bytes =
      (fsWrite (fsRemove fs (generateTempFilePath (hash bytes)))
         (generateTempFilePath (hash bytes)) bytes,
       generateTempFilePath (hash bytes), true) := by
  unfold extractToCache
  rw [if_pos hmiss]

/-- Dispatch of `extractArchiveObject` for a declared "pak" object whose
bytes are present in the archive. -/
theorem extractArchiveObject_pak (hash : List Nat → String)
    (archive : List (String × List Nat)) (path : String) (e : FModLoadingEntry)
    (fs : FileSys) (bytes : List Nat)
    (h : assocLookup archive path = some bytes) :
    extractArchiveObject hash archive "pak" path e fs =
      .ok ⟨(extractToCache hash fs bytes).1,
           { e with pakFilePaths := e.pakFilePaths ++ [(extractToCache hash fs bytes).2.1] },
           (extractToCache hash fs bytes).2.1, (extractToCache hash fs bytes).2.2⟩ := by
  unfold extractArchiveObject
  rw [h]
  rfl

/-- C4: registering a candidate mod whose modId already has a registered
valid entry rejects the new candidate (the result is `INVALID_ENTRY`),
leaves the entry map — and so the first entry — unchanged, appends exactly
one duplicate-id diagnostic naming both file paths, and leaves the rest of
the state untouched. -/
theorem C4_duplicate_modid_rejected (st : HandlerState) (modInfo : FModInfo)
    (filePath : String) (e0 : FModLoadingEntry)
    (h : assocLookup st.loadingEntries modInfo.modid = some e0)
    (hv : e0.isValid = true) :
    (createLoadingEntry st modInfo filePath).2 = INVALID_ENTRY ∧
    (createLoadingEntry st modInfo filePath).1.loadingEntries = st.loadingEntries ∧
    (createLoadingEntry st modInfo filePath).1.loadingProblems =
      st.loadingProblems ++ [dupModIdMessage modInfo.modid filePath e0.virtualModFilePath] ∧
    (createLoadingEntry st modInfo filePath).1.sortedModLoadList = st.sortedModLoadList := by
  unfold createLoadingEntry
  rw [h]
  simp [hv]

/-- C4 witness: a concrete duplicate registration of "M1". -/
theorem C4_duplicate_modid_rejected_witness :
    (createLoadingEntry
        { loadingEntries :=
            [("M1", { isValid := true, virtualModFilePath := "mods/first.smod" })] }
        { modid := "M1" } "mods/second.smod").2 = INVALID_ENTRY ∧
    (createLoadingEntry
        { loadingEntries :=
            [("M1", { isValid := true, virtualModFilePath := "mods/first.smod" })] }
        { modid := "M1" } "mods/second.smod").1.loadingEntries =
      ({ loadingEntries :=
            [("M1", { isValid := true, virtualModFilePath := "mods/first.smod" })] }
        : HandlerState).loadingEntries ∧
    (createLoadingEntry
        { loadingEntries :=
            [("M1", { isValid := true, virtualModFilePath := "mods/first.smod" })] }
        { modid := "M1" } "mods/second.smod").1.loadingProblems =
      ({ loadingEntries :=
            [("M1", { isValid := true, virtualModFilePath := "mods/first.smod" })] }
        : HandlerState).loadingProblems ++
        [dupModIdMessage "M1" "mods/second.smod" "mods/first.smod"] ∧
    (createLoadingEntry
        { loadingEntries :=
            [("M1", { isValid := true, virtualModFilePath := "mods/first.smod" })] }
        { modid := "M1" } "mods/second.smod").1.sortedModLoadList =
      ({ loadingEntries :=
            [("M1", { isValid := true, virtualModFilePath := "mods/first.smod" })] }
        : HandlerState).sortedModLoadList :=
  C4_duplicate_modid_rejected _ _ _
    { isValid := true, virtualModFilePath := "mods/first.smod" } rfl rfl

/-- C5: two extractions of byte-identical payload content — from any two
archives, the same one included — compute the same content digest, route
to the same digest-named cache location, and the second extraction
performs no disk write and leaves the file system exactly as the first
left it. -/
theorem C5_extraction_idempotent (hash : List Nat → String)
    (archive1 archive2 : List (String × List Nat)) (path1 path2 : String)
    (bytes : List Nat) (e1 e2 : FModLoadingEntry) (fs : FileSys)
    (h1 : assocLookup archive1 path1 = some bytes)
    (h2 : assocLookup archive2 path2 = some bytes) :
    extractArchiveObject hash archive1 "pak" path1 e1 fs =
      .ok ⟨(extractToCache hash fs bytes).1,
           { e1 with pakFilePaths := e1.pakFilePaths ++ [generateTempFilePath (hash bytes)] },
           generateTempFilePath (hash bytes), (extractToCache hash fs bytes).2.2⟩ ∧
    extractArchiveObject hash archive2 "pak" path2 e2 (extractToCache hash fs bytes).1 =
      .ok ⟨(extractToCache hash fs bytes).1,
           { e2 with pakFilePaths := e2.pakFilePaths ++ [generateTempFilePath (hash bytes)] },
           generateTempFilePath (hash bytes), false⟩ := by
  obtain ⟨stored, hsl, hsh⟩ := extractToCache_verified hash fs bytes
  constructor
  · rw [extractArchiveObject_pak hash archive1 path1 e1 fs bytes h1,
      extractToCache_path hash fs bytes]
  · rw [extractArchiveObject_pak hash archive2 path2 e2 _ bytes h2,
      extractToCache_hit hash (extractToCache hash fs bytes).1 bytes stored hsl hsh]

/-- C5 witness: the same two-byte payload extracted from two different
concrete archives through a concrete digest function. -/
theorem C5_extraction_idempotent_witness :
    extractArchiveObject (fun b => toString b.length) [("inner/a.pak", [1, 2])] "pak"
        "inner/a.pak" {} [] =
      .ok ⟨(extractToCache (fun b => toString b.length) [] [1, 2]).1,
           { pakFilePaths := [generateTempFilePath (toString ([1, 2] : List Nat).length)] },
           generateTempFilePath (toString ([1, 2] : List Nat).length),
           (extractToCache (fun b => toString b.length) [] [1, 2]).2.2⟩ ∧
    extractArchiveObject (fun b => toString b.length) [("other/b.pak", [1, 2])] "pak"
        "other/b.pak" {} (extractToCache (fun b => toString b.length) [] [1, 2]).1 =
      .ok ⟨(extractToCache (fun b => toString b.length) [] [1, 2]).1,
           { pakFilePaths := [generateTempFilePath (toString ([1, 2] : List Nat).length)] },
           generateTempFilePath (toString ([1, 2] : List Nat).length), false⟩ :=
  C5_extraction_idempotent (fun b => toString b.length)
    [("inner/a.pak", [1, 2])] [("other/b.pak", [1, 2])]
    "inner/a.pak" "other/b.pak" [1, 2] {} {} [] rfl rfl

/-- C6: when the file stored under a digest key no longer hashes to that
key, the extraction treats the entry as absent — the corrupt file is
removed and the payload re-extracted — and afterwards the cache location
again holds bytes that hash to its own key. -/
theorem C6_corrupt_cache_rebuilt (hash : List Nat → String)
    (archive : List (String × List Nat)) (path : String)
    (bytes stored : List Nat) (e : FModLoadingEntry) (fs : FileSys)
    (hobj : assocLookup archive path = some bytes)
    (hstored : fsLookup fs (generateTempFilePath (hash bytes)) = some stored)
    (hbad : hash stored ≠ hash bytes) :
    extractArchiveObject hash archive "pak" path e fs =
      .ok ⟨fsWrite (fsRemove fs (generateTempFilePath (hash bytes)))
             (generateTempFilePath (hash bytes)) bytes,
           { e with pakFilePaths := e.pakFilePaths ++ [generateTempFilePath (hash bytes)] },
           generateTempFilePath (hash bytes), true⟩ ∧
    fsLookup (fsWrite (fsRemove fs (generateTempFilePath (hash bytes)))
        (generateTempFilePath (hash bytes)) bytes) (generateTempFilePath (hash bytes))
      = some bytes := by
  have hmiss : ((fsLookup fs (generateTempFilePath (hash bytes))).isNone ||
      hash bytes != hashFileContents hash fs (generateTempFilePath (hash bytes))) = true := by
    rw [Bool.or_eq_true]
    right
    rw [bne_iff_ne]
    unfold hashFileContents
    rw [hstored]
    simp only [Option.getD_some]
    exact fun hx => hbad hx.symm
  constructor
  · rw [extractArchiveObject_pak hash archive path e fs bytes hobj,
      extractToCache_update hash fs bytes hmiss]
  · exact assocLookup_assocSet_self _ _ _

/-- C6 witness: a concrete corrupt cache entry (stored bytes of the wrong
length under the digest of [1, 2]) is rebuilt. -/
theorem C6_corrupt_cache_rebuilt_witness :
    extractArchiveObject (fun b => toString b.length) [("inner/a.pak", [1, 2])] "pak"
        "inner/a.pak" {} [(generateTempFilePath "2", [7])] =
      .ok ⟨fsWrite (fsRemove [(generateTempFilePath "2", [7])] (generateTempFilePath "2"))
             (generateTempFilePath "2") [1, 2],
           { pakFilePaths := [generateTempFilePath "2"] }, generateTempFilePath "2", true⟩ ∧
    fsLookup (fsWrite (fsRemove [(generateTempFilePath "2", [7])] (generateTempFilePath "2"))
        (generateTempFilePath "2") [1, 2]) (generateTempFilePath "2") = some [1, 2] :=
  C6_corrupt_cache_rebuilt (fun b => toString b.length) [("inner/a.pak", [1, 2])]
    "inner/a.pak" [1, 2] [7] {} [(generateTempFilePath "2", [7])] rfl rfl (by decide)

/-- Lookup distributes over appended association lists. -/
theorem assocLookup_append {κ α : Type} [DecidableEq κ] (l1 l2 : List (κ × α)) (k : κ) :
    assocLookup (l1 ++ l2) k = (assocLookup l1 k).or (assocLookup l2 k) := by
  induction l1 with
  | nil => simp [assocLookup]
  | cons p rest ih =>
    by_cases hp : p.1 = k
    · simp [assocLookup, hp]
    · simp [assocLookup, hp, ih]

/-- A binding already present in the loaded-mod map survives the rest of
the population loop: `std::map::insert` never overwrites. -/
theorem populateModList_lookup_mono (l : List FModLoadingEntry) (st : LoadedState)
    (m : String) (c : FModContainer)
    (h : assocLookup st.loadedMods m = some c) :
    assocLookup (populateModList l st).loadedMods m = some c := by
  induction l generalizing st with
  | nil => exact h
  | cons a rest ih =>
    simp only [populateModList]
    apply ih
    unfold mapInsert
    by_cases hs : (assocLookup st.loadedMods a.modInfo.modid).isSome = true
    · rw [if_pos hs]; exact h
    · rw [if_neg hs, assocLookup_append, h]; rfl

/-- The ordered id list accumulates the modIds of the processed entries in
load order. -/
theorem populateModList_ids (l : List FModLoadingEntry) (st : LoadedState) :
    (populateModList l st).loadedModsModIDs =
      st.loadedModsModIDs ++ l.map (fun e => e.modInfo.modid) := by
  induction l generalizing st with
  | nil => simp [populateModList]
  | cons a rest ih =>
    simp only [populateModList]
    rw [ih]
    simp

/-- Membership in the loaded-mod map is membership in the processed ids. -/
theorem populateModList_lookup_isSome (l : List FModLoadingEntry) (st : LoadedState)
    (m : String) :
    (assocLookup (populateModList l st).loadedMods m).isSome =
      ((assocLookup st.loadedMods m).isSome ||
        (l.map (fun e => e.modInfo.modid)).contains m) := by
  induction l generalizing st with
  | nil => simp [populateModList]
  | cons a rest ih =>
    simp only [populateModList]
    rw [ih]
    unfold mapInsert
    by_cases hs : (assocLookup st.loadedMods a.modInfo.modid).isSome = true
    · rw [if_pos hs]
      by_cases hm : a.modInfo.modid = m
      · subst hm
        simp [hs]
      · simp only [List.map_cons, List.contains_cons]
        have : (m == a.modInfo.modid) = false := by
          simp [Ne.symm hm]
        simp [this]
    · rw [if_neg hs, assocLookup_append]
      by_cases hm : a.modInfo.modid = m
      · subst hm
        have hnone : assocLookup st.loadedMods a.modInfo.modid = none := by
          cases hx : assocLookup st.loadedMods a.modInfo.modid with
          | none => rfl
          | some c => rw [hx] at hs; simp at hs
        rw [hnone]
        simp [assocLookup]
      · have : assocLookup [(a.modInfo.modid, (⟨a.modInfo⟩ : FModContainer))] m = none := by
          simp [assocLookup, hm]
        rw [this]
        simp only [List.map_cons, List.contains_cons]
        have hbe : (m == a.modInfo.modid) = false := by
          simp [Ne.symm hm]
        simp [hbe]

/-- With pairwise-distinct modIds, every processed entry's container can
be looked up and carries that entry's descriptor. -/
theorem populateModList_lookup_entry (l : List FModLoadingEntry) (st : LoadedState)
    (e : FModLoadingEntry) (he : e ∈ l)
    (hnodup : (l.map (fun x => x.modInfo.modid)).Nodup)
    (hfresh : assocLookup st.loadedMods e.modInfo.modid = none) :
    assocLookup (populateModList l st).loadedMods e.modInfo.modid = some ⟨e.modInfo⟩ := by
  induction l generalizing st with
  | nil => cases he
  | cons a rest ih =>
    simp only [populateModList]
    rcases List.mem_cons.mp he with rfl | hmem
    · apply populateModList_lookup_mono
      unfold mapInsert
      rw [hfresh]
      simp only [Option.isSome_none, Bool.false_eq_true, if_false]
      rw [assocLookup_append, hfresh]
      simp [assocLookup]
    · have hne : a.modInfo.modid ≠ e.modInfo.modid := by
        intro hx
        have hmap : e.modInfo.modid ∈ rest.map (fun x => x.modInfo.modid) :=
          List.mem_map_of_mem _ hmem
        rw [List.map_cons, List.nodup_cons] at hnodup
        exact hnodup.1 (hx ▸ hmap)
      refine ih _ hmem ?_ ?_
      · rw [List.map_cons, List.nodup_cons] at hnodup
        exact hnodup.2
      · unfold mapInsert
        by_cases hs : (assocLookup st.loadedMods a.modInfo.modid).isSome = true
        · rw [if_pos hs]; exact hfresh
        · rw [if_neg hs, assocLookup_append, hfresh]
          simp [assocLookup, hne]

/-- C10: after the population loop over the final sorted load list (with
pairwise-distinct modIds, as the registration stage guarantees), the
consumer-facing queries agree: `isModLoaded` holds exactly for the ids in
`getLoadedMods`, `GetLoadedMod` succeeds exactly when `isModLoaded` holds,
`getLoadedMods` lists the modIds in sorted load order, and the container
returned for an entry's modId carries that entry's descriptor. -/
theorem C10_loaded_queries_consistent (sorted : List FModLoadingEntry)
    (e : FModLoadingEntry) (m : String)
    (hnodup : (sorted.map (fun x => x.modInfo.modid)).Nodup)
    (he : e ∈ sorted) :
    isModLoaded (populateModList sorted {}) m =
      (getLoadedMods (populateModList sorted {})).contains m ∧
    (GetLoadedMod (populateModList sorted {}) m).isSome =
      isModLoaded (populateModList sorted {}) m ∧
    getLoadedMods (populateModList sorted {}) =
      sorted.map (fun x => x.modInfo.modid) ∧
    GetLoadedMod (populateModList sorted {}) e.modInfo.modid = some ⟨e.modInfo⟩ := by
  refine ⟨?_, rfl, ?_, ?_⟩
  · unfold isModLoaded getLoadedMods
    rw [populateModList_lookup_isSome, populateModList_ids]
    simp [assocLookup]
  · unfold getLoadedMods
    rw [populateModList_ids]
    rfl
  · unfold GetLoadedMod
    exact populateModList_lookup_entry sorted {} e he hnodup rfl

/-- C10 witness: a concrete two-entry load list. -/
theorem C10_loaded_queries_consistent_witness :
    isModLoaded (populateModList
        [{ isValid := true, modInfo := { modid := "M1" } },
         { isValid := true, modInfo := { modid := "M2" } }] {}) "M2" =
      (getLoadedMods (populateModList
        [{ isValid := true, modInfo := { modid := "M1" } },
         { isValid := true, modInfo := { modid := "M2" } }] {})).contains "M2" ∧
    (GetLoadedMod (populateModList
        [{ isValid := true, modInfo := { modid := "M1" } },
         { isValid := true, modInfo := { modid := "M2" } }] {}) "M2").isSome =
      isModLoaded (populateModList
        [{ isValid := true, modInfo := { modid := "M1" } },
         { isValid := true, modInfo := { modid := "M2" } }] {}) "M2" ∧
    getLoadedMods (populateModList
        [{ isValid := true, modInfo := { modid := "M1" } },
         { isValid := true, modInfo := { modid := "M2" } }] {}) =
      List.map (fun x => x.modInfo.modid)
        [{ isValid := true, modInfo := { modid := "M1" } },
         ({ isValid := true, modInfo := { modid := "M2" } } : FModLoadingEntry)] ∧
    GetLoadedMod (populateModList
        [{ isValid := true, modInfo := { modid := "M1" } },
         { isValid := true, modInfo := { modid := "M2" } }] {}) "M2" =
      some ⟨{ modid := "M2" }⟩ :=
  C10_loaded_queries_consistent
    [{ isValid := true, modInfo := { modid := "M1" } },
     { isValid := true, modInfo := { modid := "M2" } }]
    { isValid := true, modInfo := { modid := "M2" } } "M2"
    (by decide) (by simp)

/-- Setting a key to the value it already has leaves the list unchanged. -/
theorem assocSet_lookup_self {κ α : Type} [DecidableEq κ] (l : List (κ × α)) (k : κ) (v : α)
    (h : assocLookup l k = some v) : assocSet l k v = l := by
  induction l with
  | nil => simp [assocLookup] at h
  | cons p rest ih =>
    by_cases hp : p.1 = k
    · have hv : p.2 = v := by
        unfold assocLookup at h
        rw [if_pos hp] at h
        exact Option.some.inj h
      unfold assocSet
      rw [if_pos hp, ← hp, ← hv]
    · unfold assocLookup at h
      rw [if_neg hp] at h
      unfold assocSet
      rw [if_neg hp, ih h]

/-- An optional-dependency pass never touches the fatal list, whatever the
dependencies look like. -/
theorem iterateDependencies_optional_missing
    (le : List (String × FModLoadingEntry)) (mi : List (String × Nat)) (si : FModInfo)
    (missing : List String) (g : DirectedGraph) (deps : List (String × FVersionRange)) :
    (iterateDependencies le mi si missing g deps true).1 = missing := by
  induction deps generalizing g with
  | nil => rfl
  | cons pair rest ih =>
    simp only [iterateDependencies]
    by_cases hfail : (!((assocLookup le pair.1).getD {}).isValid ||
        !pair.2.matchesVersion ((assocLookup le pair.1).getD {}).modInfo.version) = true
    · rw [if_pos hfail]
      exact ih _
    · rw [if_neg hfail]
      exact ih _

/-- The fatal list only grows across a dependency pass. -/
theorem iterateDependencies_missing_mono
    (le : List (String × FModLoadingEntry)) (mi : List (String × Nat)) (si : FModInfo)
    (missing : List String) (g : DirectedGraph) (deps : List (String × FVersionRange))
    (opt : Bool) (x : String) :
    x ∈ missing → x ∈ (iterateDependencies le mi si missing g deps opt).1 := by
  induction deps generalizing missing g with
  | nil => exact id
  | cons pair rest ih =>
    intro hx
    simp only [iterateDependencies]
    by_cases hfail : (!((assocLookup le pair.1).getD {}).isValid ||
        !pair.2.matchesVersion ((assocLookup le pair.1).getD {}).modInfo.version) = true
    · rw [if_pos hfail]
      apply ih
      by_cases hopt : (!opt) = true
      · rw [if_pos hopt]
        exact List.mem_append_left _ hx
      · rw [if_neg hopt]
        exact hx
    · rw [if_neg hfail]
      exact ih _ _ hx

/-- A failing pair in a required-dependency pass lands its message in the
fatal list. -/
theorem iterateDependencies_missing_mem
    (le : List (String × FModLoadingEntry)) (mi : List (String × Nat)) (si : FModInfo)
    (missing : List String) (g : DirectedGraph) (deps : List (String × FVersionRange))
    (pair : String × FVersionRange) (hp : pair ∈ deps)
    (hfail : (!((assocLookup le pair.1).getD {}).isValid ||
        !pair.2.matchesVersion ((assocLookup le pair.1).getD {}).modInfo.version) = true) :
    depFailMessage si.modid pair.1 pair.2
        (if ((assocLookup le pair.1).getD {}).isValid then
          unsupportedVersionReason ((assocLookup le pair.1).getD {}).modInfo.version
        else notInstalledReason)
      ∈ (iterateDependencies le mi si missing g deps false).1 := by
  induction deps generalizing missing g with
  | nil => cases hp
  | cons a rest ih =>
    rcases List.mem_cons.mp hp with rfl | hmem
    · simp only [iterateDependencies]
      rw [if_pos hfail]
      apply iterateDependencies_missing_mono
      exact List.mem_append_right _ (List.mem_singleton_self _)
    · simp only [iterateDependencies]
      by_cases hfa : (!((assocLookup le a.1).getD {}).isValid ||
          !a.2.matchesVersion ((assocLookup le a.1).getD {}).modInfo.version) = true
      · rw [if_pos hfa]
        exact ih _ _ hmem
      · rw [if_neg hfa]
        exact ih _ _ hmem

/-- Every edge a dependency pass leaves in the graph is either an old edge
or the requirer → dependency edge of a present, valid, version-matching
dependency of the pass. -/
theorem iterateDependencies_edges_sound
    (le : List (String × FModLoadingEntry)) (mi : List (String × Nat)) (si : FModInfo)
    (missing : List String) (g : DirectedGraph) (deps : List (String × FVersionRange))
    (opt : Bool) (a b : Nat)
    (h : (a, b) ∈ (iterateDependencies le mi si missing g deps opt).2.edges) :
    (a, b) ∈ g.edges ∨
      ∃ pair, pair ∈ deps ∧ ∃ de, assocLookup le pair.1 = some de ∧
        de.isValid = true ∧ pair.2.matchesVersion de.modInfo.version = true ∧
        a = (assocLookup mi si.modid).getD 0 ∧
        b = (assocLookup mi de.modInfo.modid).getD 0 := by
  induction deps generalizing missing g with
  | nil => exact Or.inl h
  | cons pr rest ih =>
    simp only [iterateDependencies] at h
    by_cases hfail : (!((assocLookup le pr.1).getD {}).isValid ||
        !pr.2.matchesVersion ((assocLookup le pr.1).getD {}).modInfo.version) = true
    · rw [if_pos hfail] at h
      rcases ih _ _ h with hl | ⟨pair, hmemp, hrest⟩
      · exact Or.inl hl
      · exact Or.inr ⟨pair, List.mem_cons_of_mem _ hmemp, hrest⟩
    · rw [if_neg hfail] at h
      rcases ih _ _ h with hl | ⟨pair, hmemp, hrest⟩
      · simp only [DirectedGraph.addEdge] at hl
        rcases List.mem_append.mp hl with hg | hnew
        · exact Or.inl hg
        · have hva : ((assocLookup le pr.1).getD {}).isValid = true ∧
              pr.2.matchesVersion ((assocLookup le pr.1).getD {}).modInfo.version = true := by
            rw [Bool.or_eq_true] at hfail
            push_neg at hfail
            obtain ⟨h1, h2⟩ := hfail
            constructor
            · cases hb : ((assocLookup le pr.1).getD {}).isValid
              · rw [hb] at h1; simp at h1
              · rfl
            · cases hb : pr.2.matchesVersion ((assocLookup le pr.1).getD {}).modInfo.version
              · rw [hb] at h2; simp at h2
              · rfl
          have hab := List.mem_singleton.mp hnew
          cases hde : assocLookup le pr.1 with
          | none =>
            rw [hde] at hva
            exact Bool.noConfusion hva.1
          | some de =>
            rw [hde] at hva hab
            exact Or.inr ⟨pr, List.mem_cons_self _ _, de, hde, hva.1, hva.2,
              congrArg Prod.fst hab, congrArg Prod.snd hab⟩
      · exact Or.inr ⟨pair, List.mem_cons_of_mem _ hmemp, hrest⟩

/-- The fatal list only grows across the all-entries pass. -/
theorem iterateAllDependencies_missing_mono
    (le : List (String × FModLoadingEntry)) (mi : List (String × Nat))
    (entries : List FModLoadingEntry) (missing : List String) (g : DirectedGraph)
    (x : String) :
    x ∈ missing → x ∈ (iterateAllDependencies le mi entries missing g).1 := by
  induction entries generalizing missing g with
  | nil => exact id
  | cons e rest ih =>
    intro hx
    simp only [iterateAllDependencies]
    apply ih
    apply iterateDependencies_missing_mono
    apply iterateDependencies_missing_mono
    exact hx

/-- Every entry's failing required dependency lands its message in the
fatal list of the all-entries pass, whatever else is processed before or
after it: batch collection, not fail-fast. -/
theorem iterateAllDependencies_missing_mem
    (le : List (String × FModLoadingEntry)) (mi : List (String × Nat))
    (entries : List FModLoadingEntry) (missing : List String) (g : DirectedGraph)
    (e : FModLoadingEntry) (pair : String × FVersionRange)
    (he : e ∈ entries) (hp : pair ∈ e.modInfo.dependencies)
    (hfail : (!((assocLookup le pair.1).getD {}).isValid ||
        !pair.2.matchesVersion ((assocLookup le pair.1).getD {}).modInfo.version) = true) :
    depFailMessage e.modInfo.modid pair.1 pair.2
        (if ((assocLookup le pair.1).getD {}).isValid then
          unsupportedVersionReason ((assocLookup le pair.1).getD {}).modInfo.version
        else notInstalledReason)
      ∈ (iterateAllDependencies le mi entries missing g).1 := by
  induction entries generalizing missing g with
  | nil => cases he
  | cons a rest ih =>
    simp only [iterateAllDependencies]
    rcases List.mem_cons.mp he with rfl | hmem
    · apply iterateAllDependencies_missing_mono
      rw [iterateDependencies_optional_missing]
      exact iterateDependencies_missing_mem le mi e.modInfo missing g
        e.modInfo.dependencies pair hp hfail
    · exact ih _ _ hmem

/-- C7 (amended): optional-dependency failures are silently ignored — the
optional pass leaves the fatal list exactly as it was (and nothing else
records the failure anywhere, as the counterexample shows), and every edge
in the graph comes from a present, valid, version-matching dependency, so
a failing dependency of either kind adds no edge; only required-dependency
failures reach the fatal list, and every entry's required failure is
collected into the batch that `checkDependencies` reports, however many
entries precede or follow it. -/
theorem C7_amended_optional_informational :
    (∀ (le : List (String × FModLoadingEntry)) (mi : List (String × Nat)) (si : FModInfo)
       (missing : List String) (g : DirectedGraph) (deps : List (String × FVersionRange)),
      (iterateDependencies le mi si missing g deps true).1 = missing) ∧
    (∀ (le : List (String × FModLoadingEntry)) (mi : List (String × Nat)) (si : FModInfo)
       (missing : List String) (g : DirectedGraph) (deps : List (String × FVersionRange))
       (opt : Bool) (a b : Nat),
      (a, b) ∈ (iterateDependencies le mi si missing g deps opt).2.edges →
      (a, b) ∈ g.edges ∨
        ∃ pair, pair ∈ deps ∧ ∃ de, assocLookup le pair.1 = some de ∧
          de.isValid = true ∧ pair.2.matchesVersion de.modInfo.version = true ∧
          a = (assocLookup mi si.modid).getD 0 ∧
          b = (assocLookup mi de.modInfo.modid).getD 0) ∧
    (∀ (st : HandlerState) (p : String × FModLoadingEntry), p ∈ st.loadingEntries →
      ∀ pair ∈ p.2.modInfo.dependencies,
      (!((assocLookup st.loadingEntries pair.1).getD {}).isValid ||
        !pair.2.matchesVersion
          ((assocLookup st.loadingEntries pair.1).getD {}).modInfo.version) = true →
      depFailMessage p.2.modInfo.modid pair.1 pair.2
          (if ((assocLookup st.loadingEntries pair.1).getD {}).isValid then
            unsupportedVersionReason
              ((assocLookup st.loadingEntries pair.1).getD {}).modInfo.version
          else notInstalledReason)
        ∈ (checkDependencies st).loadingProblems) := by
  refine ⟨iterateDependencies_optional_missing,
    iterateDependencies_edges_sound, ?_⟩
  intro st p hpmem pair hpair hfail
  have hm : depFailMessage p.2.modInfo.modid pair.1 pair.2
      (if ((assocLookup st.loadingEntries pair.1).getD {}).isValid then
        unsupportedVersionReason ((assocLookup st.loadingEntries pair.1).getD {}).modInfo.version
      else notInstalledReason) ∈ (buildSortGraph st).1 := by
    unfold buildSortGraph
    exact iterateAllDependencies_missing_mem st.loadingEntries _ _ _ _ p.2 pair
      (List.mem_map_of_mem _ hpmem) hpair hfail
  unfold checkDependencies
  have hne : (buildSortGraph st).1.isEmpty = false := by
    cases hxx : (buildSortGraph st).1 with
    | nil => rw [hxx] at hm; cases hm
    | cons y ys => rfl
  simp only [hne, Bool.not_false, if_true]
  exact List.mem_append_right _ (List.mem_cons_of_mem _ hm)

/-- C7 witness: the optional pass over a failing optional dependency
leaves the fatal list empty, and a concrete failing required dependency's
message reaches the reported batch. -/
theorem C7_amended_optional_informational_witness :
    (iterateDependencies [] [] {} [] {} [("Ghost", versionAtLeast ⟨1, 0, 0⟩)] true).1 = [] ∧
    depFailMessage "E2" "Ghost" (versionAtLeast ⟨1, 0, 0⟩) notInstalledReason
      ∈ (checkDependencies c7bstate).loadingProblems := by
  constructor
  · exact C7_amended_optional_informational.1 [] [] {} [] {} _
  · exact C7_amended_optional_informational.2.2 c7bstate ("E2", c7bentry)
      (List.mem_singleton_self _) ("Ghost", versionAtLeast ⟨1, 0, 0⟩)
      (List.mem_singleton_self _) rfl

/-- C8 (amended): a raw mod whose inferred modId collides with a packed
(non-raw) valid entry is rejected with one raw-conflict diagnostic and the
existing entry map left unchanged; a raw mod colliding with an existing
valid raw entry — of either kind — raises no conflict and shares that
entry; and a raw mod under a fresh id creates a valid raw entry whose
synthetic dummy descriptor carries the fixed version 1.0.0 and whose only
dependency-map key is the `@ORDER:LAST` load-last marker, with no
diagnostic recorded. -/
theorem C8_amended_raw_conflicts (st : HandlerState) (modId filePath : String) :
    (∀ e0, assocLookup st.loadingEntries modId = some e0 → e0.isValid = true →
      e0.isRawMod = false →
      createRawModLoadingEntry st modId filePath =
        ({ st with loadingProblems := st.loadingProblems ++ [rawConflictMessage filePath] },
         INVALID_ENTRY)) ∧
    (∀ e0, assocLookup st.loadingEntries modId = some e0 → e0.isValid = true →
      e0.isRawMod = true →
      createRawModLoadingEntry st modId filePath = (st, e0)) ∧
    (assocLookup st.loadingEntries modId = none →
      (createRawModLoadingEntry st modId filePath).2.isValid = true ∧
      (createRawModLoadingEntry st modId filePath).2.isRawMod = true ∧
      (createRawModLoadingEntry st modId filePath).2.modInfo.dependencies.map
          (fun p => p.1) = ["@ORDER:LAST"] ∧
      (createRawModLoadingEntry st modId filePath).2.modInfo.version = ⟨1, 0, 0⟩ ∧
      (createRawModLoadingEntry st modId filePath).1.loadingProblems =
        st.loadingProblems) := by
  refine ⟨?_, ?_, ?_⟩
  · intro e0 h hv hraw
    unfold createRawModLoadingEntry
    rw [h]
    simp only [Option.getD_some, hv, Bool.not_true, Bool.false_eq_true, if_false, hraw,
      Bool.not_false, if_true]
    rw [assocSet_lookup_self st.loadingEntries modId e0 h]
  · intro e0 h hv hraw
    unfold createRawModLoadingEntry
    rw [h]
    simp only [Option.getD_some, hv, Bool.not_true, Bool.false_eq_true, if_false, hraw,
      Bool.not_true]
    rw [assocSet_lookup_self st.loadingEntries modId e0 h]
  · intro h
    unfold createRawModLoadingEntry
    rw [h]
    exact ⟨rfl, rfl, rfl, rfl, rfl⟩

/-- C8 amended witness: a raw file colliding with the packed mod "Foo" is
rejected with the conflict diagnostic; a raw file under the fresh id "Bar"
creates a tagged raw entry with no diagnostic. -/
theorem C8_amended_raw_conflicts_witness :
    createRawModLoadingEntry
        { loadingEntries := [("Foo", { isValid := true, virtualModFilePath := "m/Foo.smod" })] }
        "Foo" "Foo.pak" =
      ({ loadingEntries := [("Foo", { isValid := true, virtualModFilePath := "m/Foo.smod" })],
         loadingProblems := [rawConflictMessage "Foo.pak"] }, INVALID_ENTRY) ∧
    (createRawModLoadingEntry ({} : HandlerState) "Bar" "Bar.pak").2.isRawMod = true ∧
    (createRawModLoadingEntry ({} : HandlerState) "Bar" "Bar.pak").2.modInfo.dependencies.map
        (fun p => p.1) = ["@ORDER:LAST"] ∧
    (createRawModLoadingEntry ({} : HandlerState) "Bar" "Bar.pak").1.loadingProblems = [] := by
  have h1 := (C8_amended_raw_conflicts
      { loadingEntries := [("Foo", { isValid := true, virtualModFilePath := "m/Foo.smod" })] }
      "Foo" "Foo.pak").1
    { isValid := true, virtualModFilePath := "m/Foo.smod" } rfl rfl rfl
  have h2 := (C8_amended_raw_conflicts ({} : HandlerState) "Bar" "Bar.pak").2.2 rfl
  exact ⟨h1, h2.2.1, h2.2.2.1, h2.2.2.2.2⟩

/-- C9 (code evaluation at the failing input): for the asset-package file
"FactoryGame_p.pak" — the very example of the source's own comment, "clean
priority suffix if it is there" — `getModIdFromFile` returns
"FactoryGame_p" with the priority suffix still attached, not the
"FactoryGame" that the claim (one trailing priority-suffix marker
stripped when present) requires: `find_last_of(TEXT("_p"))` finds the last
occurrence of either character '_' or 'p' (here the final 'p', at the last
position, not at size − 2), so the strip branch is never taken. -/
theorem C9_pak_suffix_code_behavior :
    getModIdFromFile "FactoryGame_p.pak".toList = "FactoryGame_p".toList ∧
    "FactoryGame_p".toList ≠ "FactoryGame".toList := by
  constructor
  · decide
  · decide

/-- C2 (code evaluation at the failing input): on the sorted sequence
[1, 2] over entries "A" (index 1, untagged) and "B" (index 2, tagged
`@ORDER:LAST`), `finalizeSortingResults` returns [2, 1] — the tagged entry
is moved to the front, not kept at the end as the claim requires ([1, 2]):
the first loop pushes the position `i = 1` of the tagged entry instead of
its node index `sortedIndices[i] = 2`, and the second loop then erases and
re-appends the unrelated node whose index equals that position. -/
theorem C2_finalize_moves_wrong_entry :
    finalizeSortingResults c2modByIndex c2entries [1, 2] = [2, 1] ∧
    ([2, 1] : List Nat) ≠ [1, 2] := by
  constructor
  · decide
  · decide

/-- C3 (code evaluation at the failing input): on the scenario M1 (1.2.0,
no dependencies), M2 (requires M1 >= 1.0.0), M3 (raw, auto-tagged
`@ORDER:LAST`), dependency resolution does not succeed: the `@ORDER:LAST`
marker sits in M3's required dependencies map, `iterateDependencies` looks
it up like any other dependency, finds no valid entry, and records a fatal
"not installed" failure, so `checkDependencies` aborts before sorting and
the sorted list stays empty instead of the claimed [M1, M2, M3]. -/
theorem C3_raw_marker_aborts_resolution :
    (checkDependencies c3state).loadingProblems =
      [missingDepsHeader,
       depFailMessage "M3" "@ORDER:LAST" (versionRangeOfString "1.0.0") notInstalledReason] ∧
    (checkDependencies c3state).sortedModLoadList = [] := by
  constructor
  · decide
  · rfl

/-- C7 (counterexample): a valid entry E1 whose only optional dependency
names the unregistered mod "Ghost" -- the claim requires a diagnostic
naming the requirer to be emitted for this failure, but after
`checkDependencies` the diagnostics list is empty (the failure message is
built and then discarded for optional dependencies) while resolution
proceeded normally to the sorted list [E1]. -/
theorem C7_counterexample_no_optional_diagnostic :
    (checkDependencies c7state).loadingProblems = [] ∧
    (checkDependencies c7state).sortedModLoadList.map (fun e => e.modInfo.modid) = ["E1"] := by
  constructor
  · decide
  · decide

/-- C8 (counterexample): the dynamic-module raw mod "Foo-Win64.dll" and
the asset-package raw mod "Foo.pak" are both discovered in development
mode under the same inferred id "Foo" — the claim requires a RawModConflict
diagnostic, but no diagnostic is recorded: the second raw file finds a
valid raw entry and simply augments it, leaving one shared entry holding
both the dll path and the pak path. -/
theorem C8_counterexample_raw_kinds_share_entry :
    c8state.loadingProblems = [] ∧
    ((assocLookup c8state.loadingEntries "Foo").map
      (fun e => (e.isValid, e.isRawMod, e.dllFilePath, e.pakFilePaths)))
      = some (true, true, "Foo-Win64.dll", ["Foo.pak"]) := by
  constructor
  · decide
  · decide

/-- A nonempty list has an element of minimal rank. -/
theorem exists_min_rank (rank : Nat → Nat) (l : List Nat) (h : l ≠ []) :
    ∃ m ∈ l, ∀ x ∈ l, rank m ≤ rank x := by
  induction l with
  | nil => cases h rfl
  | cons a rest ih =>
    by_cases hr : rest = []
    · subst hr
      exact ⟨a, List.mem_singleton_self a, by
        intro x hx
        rw [List.mem_singleton.mp hx]⟩
    · obtain ⟨m, hm, hmin⟩ := ih hr
      by_cases hcmp : rank a ≤ rank m
      · refine ⟨a, List.mem_cons_self a rest, ?_⟩
        intro x hx
        rcases List.mem_cons.mp hx with rfl | hx'
        · exact Nat.le_refl _
        · exact Nat.le_trans hcmp (hmin x hx')
      · refine ⟨m, List.mem_cons_of_mem a hm, ?_⟩
        intro x hx
        rcases List.mem_cons.mp hx with rfl | hx'
        · exact Nat.le_of_lt (Nat.lt_of_not_le hcmp)
        · exact hmin x hx'

/-- Membership in a graph's dependency list is membership of the edge. -/
theorem DirectedGraph.mem_deps (g : DirectedGraph) (n d : Nat) :
    d ∈ g.deps n ↔ (n, d) ∈ g.edges := by
  unfold DirectedGraph.deps
  rw [List.mem_map]
  constructor
  · rintro ⟨e, hmem, rfl⟩
    obtain ⟨hme, hbeq⟩ := List.mem_filter.mp hmem
    have he : e.1 = n := eq_of_beq hbeq
    rw [← he]
    exact hme
  · intro hmem
    refine ⟨(n, d), List.mem_filter.mpr ⟨hmem, ?_⟩, rfl⟩
    simp

/-- A ranking certificate of acyclicity makes the modelled sort succeed. -/
theorem topologicalSortAux_success (deps : Nat → List Nat) (rank : Nat → Nat) (fuel : Nat) :
    ∀ emitted remaining, remaining.length ≤ fuel →
    (∀ n ∈ remaining, ∀ d ∈ deps n, d ∈ remaining → rank d < rank n) →
    ∃ out, topologicalSortAux deps fuel emitted remaining = .ok out := by
  induction fuel with
  | zero =>
    intro emitted remaining hlen _
    have : remaining = [] := List.length_eq_zero.mp (Nat.le_zero.mp hlen)
    subst this
    exact ⟨emitted, rfl⟩
  | succ n ih =>
    intro emitted remaining hlen hrank
    by_cases hr : remaining.isEmpty = true
    · refine ⟨emitted, ?_⟩
      unfold topologicalSortAux
      rw [if_pos hr]
    · have hne : remaining ≠ [] := by
        intro hx
        subst hx
        simp at hr
      obtain ⟨m, hm, hmin⟩ := exists_min_rank rank remaining hne
      have hpred : ((deps m).all (fun d => !remaining.contains d)) = true := by
        rw [List.all_eq_true]
        intro d hd
        by_cases hdr : d ∈ remaining
        · have h1 := hrank m hm d hd hdr
          have h2 := hmin d hdr
          omega
        · have : remaining.contains d = false := by
            cases hc : remaining.contains d
            · rfl
            · exact absurd (List.elem_iff.mp hc) hdr
          rw [this]
          rfl
      have hfind : ∃ n1, remaining.find? (fun x => (deps x).all (fun d => !remaining.contains d))
          = some n1 := by
        rw [← Option.isSome_iff_exists, List.find?_isSome]
        exact ⟨m, hm, hpred⟩
      obtain ⟨n1, hfind⟩ := hfind
      have hn1mem := List.mem_of_find?_eq_some hfind
      have hlen' : (remaining.erase n1).length ≤ n := by
        rw [List.length_erase_of_mem hn1mem]
        omega
      obtain ⟨out, hout⟩ := ih (emitted ++ [n1]) (remaining.erase n1) hlen'
        (fun x hx d hd hdr =>
          hrank x (List.mem_of_mem_erase hx) d hd (List.mem_of_mem_erase hdr))
      refine ⟨out, ?_⟩
      unfold topologicalSortAux
      rw [if_neg hr, hfind]
      exact hout

/-- A successful modelled sort emits a permutation of what was left to
emit. -/
theorem topologicalSortAux_perm (deps : Nat → List Nat) (fuel : Nat) :
    ∀ emitted remaining out, topologicalSortAux deps fuel emitted remaining = .ok out →
    out.Perm (emitted ++ remaining) := by
  induction fuel with
  | zero =>
    intro emitted remaining out h
    unfold topologicalSortAux at h
    by_cases hr : remaining.isEmpty = true
    · rw [if_pos hr] at h
      rw [List.isEmpty_iff.mp hr, List.append_nil]
      exact (Except.ok.inj h) ▸ List.Perm.refl _
    · rw [if_neg hr] at h
      cases h
  | succ n ih =>
    intro emitted remaining out h
    unfold topologicalSortAux at h
    by_cases hr : remaining.isEmpty = true
    · rw [if_pos hr] at h
      rw [List.isEmpty_iff.mp hr, List.append_nil]
      exact (Except.ok.inj h) ▸ List.Perm.refl _
    · rw [if_neg hr] at h
      cases hfind : remaining.find?
          (fun x => (deps x).all (fun d => !remaining.contains d)) with
      | none => rw [hfind] at h; cases h
      | some n0 =>
        rw [hfind] at h
        have hmem := List.mem_of_find?_eq_some hfind
        have hperm := ih _ _ _ h
        rw [List.append_assoc] at hperm
        exact hperm.trans (List.Perm.append_left emitted
          (List.perm_cons_erase hmem).symm)

/-- A successful modelled sort never emits a node before one of its
dependencies: along the output, no later node is a dependency of an
earlier one, and no node depends on itself. -/
theorem topologicalSortAux_sound (deps : Nat → List Nat) (fuel : Nat) :
    ∀ emitted remaining out,
    (∀ a ∈ emitted, ∀ d ∈ deps a, d ∉ remaining) →
    (∀ a ∈ emitted, a ∉ deps a) →
    emitted.Pairwise (fun a b => b ∉ deps a) →
    topologicalSortAux deps fuel emitted remaining = .ok out →
    out.Pairwise (fun a b => b ∉ deps a) ∧ ∀ a ∈ out, a ∉ deps a := by
  induction fuel with
  | zero =>
    intro emitted remaining out _ hself hpair h
    unfold topologicalSortAux at h
    by_cases hr : remaining.isEmpty = true
    · rw [if_pos hr] at h
      exact (Except.ok.inj h) ▸ ⟨hpair, hself⟩
    · rw [if_neg hr] at h
      cases h
  | succ n ih =>
    intro emitted remaining out hdisj hself hpair h
    unfold topologicalSortAux at h
    by_cases hr : remaining.isEmpty = true
    · rw [if_pos hr] at h
      exact (Except.ok.inj h) ▸ ⟨hpair, hself⟩
    · rw [if_neg hr] at h
      cases hfind : remaining.find?
          (fun x => (deps x).all (fun d => !remaining.contains d)) with
      | none => rw [hfind] at h; cases h
      | some n0 =>
        rw [hfind] at h
        have hmem := List.mem_of_find?_eq_some hfind
        have hpred := List.find?_some hfind
        have hn0deps : ∀ d ∈ deps n0, d ∉ remaining := by
          intro d hd hdr
          have hall := List.all_eq_true.mp hpred d hd
          have hcon : remaining.contains d = true := List.elem_iff.mpr hdr
          rw [hcon] at hall
          cases hall
        refine ih (emitted ++ [n0]) (remaining.erase n0) out ?_ ?_ ?_ h
        · intro a ha d hd hdr
          rcases List.mem_append.mp ha with ha' | ha'
          · exact hdisj a ha' d hd (List.mem_of_mem_erase hdr)
          · rw [List.mem_singleton.mp ha'] at hd
            exact hn0deps d hd (List.mem_of_mem_erase hdr)
        · intro a ha
          rcases List.mem_append.mp ha with ha' | ha'
          · exact hself a ha'
          · rw [List.mem_singleton.mp ha']
            intro hcontra
            exact hn0deps n0 hcontra hmem
        · rw [List.pairwise_append]
          refine ⟨hpair, List.pairwise_singleton _ _, ?_⟩
          intro a ha b hb
          rw [List.mem_singleton.mp hb]
          intro hcontra
          exact hdisj a ha n0 hcontra hmem

/-- Looking an index up in `indexKeys` recovers the key at that offset. -/
theorem indexKeys_lookup (keys : List String) (i j : Nat) :
    assocLookup (indexKeys i keys) (i + j) = keys[j]? := by
  induction keys generalizing i j with
  | nil => cases j <;> simp [indexKeys, assocLookup]
  | cons a rest ih =>
    cases j with
    | zero => simp [indexKeys, assocLookup]
    | succ j' =>
      simp only [indexKeys, assocLookup]
      rw [if_neg (by omega : ¬(i = i + (j' + 1)))]
      have harith : i + (j' + 1) = (i + 1) + j' := by omega
      rw [harith, ih]
      simp

/-- Looking a key up in the swapped index list recovers its index, when
keys are pairwise distinct. -/
theorem indexKeys_swap_lookup (keys : List String) (i j : Nat) (k : String)
    (hnodup : keys.Nodup) (hj : keys[j]? = some k) :
    assocLookup ((indexKeys i keys).map (fun p => (p.2, p.1))) k = some (i + j) := by
  induction keys generalizing i j with
  | nil => simp at hj
  | cons a rest ih =>
    cases j with
    | zero =>
      have ha : a = k := Option.some.inj (by simpa using hj)
      subst ha
      simp [indexKeys, assocLookup]
    | succ j' =>
      rw [List.getElem?_cons_succ] at hj
      have hk : k ∈ rest := by
        have := List.getElem?_eq_some.mp hj
        obtain ⟨hlt, hget⟩ := this
        exact hget ▸ List.getElem_mem _
      have hne : a ≠ k := by
        rw [List.nodup_cons] at hnodup
        intro hx
        subst hx
        exact hnodup.1 hk
      simp only [indexKeys, List.map_cons, assocLookup]
      rw [if_neg hne]
      have harith : i + (j' + 1) = (i + 1) + j' := by omega
      rw [harith]
      rw [List.nodup_cons] at hnodup
      exact ih (i + 1) j' hnodup.2 hj

/-- `modIndices` lookup: a registered key maps to position + 1. -/
theorem modIndicesOf_lookup (keys : List String) (j : Nat) (k : String)
    (hnodup : keys.Nodup) (hj : keys[j]? = some k) :
    assocLookup (modIndicesOf keys) k = some (j + 1) := by
  unfold modIndicesOf
  have := indexKeys_swap_lookup keys 1 j k hnodup hj
  rw [Nat.add_comm 1 j] at this
  exact this

/-- `modByIndex` lookup: index position + 1 maps back to the key. -/
theorem modByIndexOf_lookup (keys : List String) (j : Nat) :
    assocLookup (modByIndexOf keys) (j + 1) = keys[j]? := by
  unfold modByIndexOf
  have := indexKeys_lookup keys 1 j
  rw [Nat.add_comm 1 j] at this
  exact this

/-- The node list assigned by the index loop is 1..N in order. -/
theorem indexKeys_fst (keys : List String) (i : Nat) :
    (indexKeys i keys).map (fun p => p.1) = List.range' i keys.length := by
  induction keys generalizing i with
  | nil => rfl
  | cons a rest ih =>
    simp only [indexKeys, List.map_cons, List.length_cons]
    rw [List.range'_succ i rest.length 1, ih]

/-- The graph nodes are exactly 1..N. -/
theorem graphNodesOf_eq (keys : List String) :
    graphNodesOf keys = List.range' 1 keys.length :=
  indexKeys_fst keys 1

/-- With pairwise-distinct keys, the entry at a position is what its key
looks up to. -/
theorem assocLookup_of_getElem {α : Type} (l : List (String × α)) (j : Nat)
    (p : String × α) (hnodup : (l.map (fun q => q.1)).Nodup) (hj : l[j]? = some p) :
    assocLookup l p.1 = some p.2 := by
  induction l generalizing j with
  | nil => simp at hj
  | cons a rest ih =>
    cases j with
    | zero =>
      have ha : a = p := Option.some.inj (by simpa using hj)
      subst ha
      simp [assocLookup]
    | succ j' =>
      rw [List.getElem?_cons_succ] at hj
      have hp : p ∈ rest := by
        obtain ⟨hlt, hget⟩ := List.getElem?_eq_some.mp hj
        exact hget ▸ List.getElem_mem _
      have hne : a.1 ≠ p.1 := by
        rw [List.map_cons, List.nodup_cons] at hnodup
        intro hx
        apply hnodup.1
        rw [hx]
        exact List.mem_map_of_mem _ hp
      unfold assocLookup
      rw [if_neg hne]
      rw [List.map_cons, List.nodup_cons] at hnodup
      exact ih j' hnodup.2 hj

/-- A successful lookup exhibits its binding as a member. -/
theorem assocLookup_some_mem {κ α : Type} [DecidableEq κ] (l : List (κ × α)) (k : κ) (v : α)
    (h : assocLookup l k = some v) : (k, v) ∈ l := by
  induction l with
  | nil => cases h
  | cons a rest ih =>
    unfold assocLookup at h
    by_cases hp : a.1 = k
    · rw [if_pos hp] at h
      have ha : a = (k, v) := Prod.ext hp (Option.some.inj h)
      rw [← ha]
      exact List.mem_cons_self _ _
    · rw [if_neg hp] at h
      exact List.mem_cons_of_mem _ (ih h)

/-- A lookup over bindings whose keys all differ from the key fails. -/
theorem assocLookup_none_of_keys {κ α : Type} [DecidableEq κ] (l : List (κ × α)) (k : κ)
    (h : ∀ p ∈ l, p.1 ≠ k) : assocLookup l k = none := by
  induction l with
  | nil => rfl
  | cons a rest ih =>
    unfold assocLookup
    rw [if_neg (h a (List.mem_cons_self _ _))]
    exact ih (fun p hp => h p (List.mem_cons_of_mem _ hp))

/-- The edge set only grows across a dependency pass. -/
theorem iterateDependencies_edges_mono (le : List (String × FModLoadingEntry))
    (mi : List (String × Nat)) (si : FModInfo) (missing : List String) (g : DirectedGraph)
    (deps : List (String × FVersionRange)) (opt : Bool) (x : Nat × Nat)
    (hx : x ∈ g.edges) : x ∈ (iterateDependencies le mi si missing g deps opt).2.edges := by
  induction deps generalizing missing g with
  | nil => exact hx
  | cons pair rest ih =>
    simp only [iterateDependencies]
    by_cases hfail : (!((assocLookup le pair.1).getD {}).isValid ||
        !pair.2.matchesVersion ((assocLookup le pair.1).getD {}).modInfo.version) = true
    · rw [if_pos hfail]
      exact ih _ _ hx
    · rw [if_neg hfail]
      apply ih
      simp only [DirectedGraph.addEdge]
      exact List.mem_append_left _ hx

/-- A present, valid, version-matching dependency pair leaves its
requirer → dependency edge in the graph. -/
theorem iterateDependencies_edges_mem (le : List (String × FModLoadingEntry))
    (mi : List (String × Nat)) (si : FModInfo) (missing : List String) (g : DirectedGraph)
    (deps : List (String × FVersionRange)) (opt : Bool)
    (pair : String × FVersionRange) (de : FModLoadingEntry)
    (hp : pair ∈ deps) (hde : assocLookup le pair.1 = some de) (hv : de.isValid = true)
    (hm : pair.2.matchesVersion de.modInfo.version = true) :
    ((assocLookup mi si.modid).getD 0, (assocLookup mi de.modInfo.modid).getD 0)
      ∈ (iterateDependencies le mi si missing g deps opt).2.edges := by
  induction deps generalizing missing g with
  | nil => cases hp
  | cons a rest ih =>
    rcases List.mem_cons.mp hp with rfl | hmem
    · simp only [iterateDependencies]
      rw [hde]
      simp only [Option.getD_some, hv, hm, Bool.not_true, Bool.or_self, Bool.false_eq_true,
        if_false]
      apply iterateDependencies_edges_mono
      simp only [DirectedGraph.addEdge]
      exact List.mem_append_right _ (List.mem_singleton_self _)
    · simp only [iterateDependencies]
      by_cases hfa : (!((assocLookup le a.1).getD {}).isValid ||
          !a.2.matchesVersion ((assocLookup le a.1).getD {}).modInfo.version) = true
      · rw [if_pos hfa]
        exact ih _ _ hmem
      · rw [if_neg hfa]
        exact ih _ _ hmem

/-- The edge set only grows across the all-entries pass. -/
theorem iterateAllDependencies_edges_mono (le : List (String × FModLoadingEntry))
    (mi : List (String × Nat)) (entries : List FModLoadingEntry) (missing : List String)
    (g : DirectedGraph) (x : Nat × Nat)
    (hx : x ∈ g.edges) : x ∈ (iterateAllDependencies le mi entries missing g).2.edges := by
  induction entries generalizing missing g with
  | nil => exact hx
  | cons e rest ih =>
    simp only [iterateAllDependencies]
    exact ih _ _ (iterateDependencies_edges_mono _ _ _ _ _ _ _ _
      (iterateDependencies_edges_mono _ _ _ _ _ _ _ _ hx))

/-- Every entry's present, valid, version-matching required dependency
leaves its edge in the final graph. -/
theorem iterateAllDependencies_edges_mem (le : List (String × FModLoadingEntry))
    (mi : List (String × Nat)) (entries : List FModLoadingEntry) (missing : List String)
    (g : DirectedGraph) (e : FModLoadingEntry)
    (pair : String × FVersionRange) (de : FModLoadingEntry)
    (he : e ∈ entries) (hp : pair ∈ e.modInfo.dependencies)
    (hde : assocLookup le pair.1 = some de) (hv : de.isValid = true)
    (hm : pair.2.matchesVersion de.modInfo.version = true) :
    ((assocLookup mi e.modInfo.modid).getD 0, (assocLookup mi de.modInfo.modid).getD 0)
      ∈ (iterateAllDependencies le mi entries missing g).2.edges := by
  induction entries generalizing missing g with
  | nil => cases he
  | cons a rest ih =>
    simp only [iterateAllDependencies]
    rcases List.mem_cons.mp he with rfl | hmem
    · apply iterateAllDependencies_edges_mono
      apply iterateDependencies_edges_mono
      exact iterateDependencies_edges_mem le mi e.modInfo missing g
        e.modInfo.dependencies false pair de hp hde hv hm
    · exact ih _ _ hmem

/-- A required pass over entirely satisfied dependencies leaves the fatal
list untouched. -/
theorem iterateDependencies_required_ok (le : List (String × FModLoadingEntry))
    (mi : List (String × Nat)) (si : FModInfo) (missing : List String) (g : DirectedGraph)
    (deps : List (String × FVersionRange))
    (hsat : ∀ pair ∈ deps, ∃ de, assocLookup le pair.1 = some de ∧ de.isValid = true ∧
      pair.2.matchesVersion de.modInfo.version = true) :
    (iterateDependencies le mi si missing g deps false).1 = missing := by
  induction deps generalizing g with
  | nil => rfl
  | cons a rest ih =>
    obtain ⟨de, hde, hv, hm⟩ := hsat a (List.mem_cons_self _ _)
    simp only [iterateDependencies]
    rw [hde]
    simp only [Option.getD_some, hv, hm, Bool.not_true, Bool.or_self, Bool.false_eq_true,
      if_false]
    exact ih _ (fun pair hp => hsat pair (List.mem_cons_of_mem _ hp))

/-- When every entry's required dependencies are satisfied, the
all-entries pass produces no fatal message. -/
theorem iterateAllDependencies_missing_keep (le : List (String × FModLoadingEntry))
    (mi : List (String × Nat)) (entries : List FModLoadingEntry) (missing : List String)
    (g : DirectedGraph)
    (hsat : ∀ e ∈ entries, ∀ pair ∈ e.modInfo.dependencies, ∃ de,
      assocLookup le pair.1 = some de ∧ de.isValid = true ∧
      pair.2.matchesVersion de.modInfo.version = true) :
    (iterateAllDependencies le mi entries missing g).1 = missing := by
  induction entries generalizing missing g with
  | nil => rfl
  | cons a rest ih =>
    simp only [iterateAllDependencies]
    rw [ih _ _ (fun e he => hsat e (List.mem_cons_of_mem _ he))]
    rw [iterateDependencies_optional_missing]
    exact iterateDependencies_required_ok le mi a.modInfo missing g
      a.modInfo.dependencies (hsat a (List.mem_cons_self _ _))

/-- A dependency pass never changes the node list. -/
theorem iterateDependencies_nodes (le : List (String × FModLoadingEntry))
    (mi : List (String × Nat)) (si : FModInfo) (missing : List String) (g : DirectedGraph)
    (deps : List (String × FVersionRange)) (opt : Bool) :
    (iterateDependencies le mi si missing g deps opt).2.nodes = g.nodes := by
  induction deps generalizing missing g with
  | nil => rfl
  | cons pair rest ih =>
    simp only [iterateDependencies]
    by_cases hfail : (!((assocLookup le pair.1).getD {}).isValid ||
        !pair.2.matchesVersion ((assocLookup le pair.1).getD {}).modInfo.version) = true
    · rw [if_pos hfail]
      exact ih _ _
    · rw [if_neg hfail]
      rw [ih _ _]
      rfl

/-- The all-entries pass never changes the node list. -/
theorem iterateAllDependencies_nodes (le : List (String × FModLoadingEntry))
    (mi : List (String × Nat)) (entries : List FModLoadingEntry) (missing : List String)
    (g : DirectedGraph) :
    (iterateAllDependencies le mi entries missing g).2.nodes = g.nodes := by
  induction entries generalizing missing g with
  | nil => rfl
  | cons e rest ih =>
    simp only [iterateAllDependencies]
    rw [ih _ _, iterateDependencies_nodes, iterateDependencies_nodes]

/-- C1 (amended): for every set of valid loading entries with
pairwise-distinct keys matching their descriptors' modIds, all required
dependencies satisfied, the `@ORDER:LAST` marker unregistered, and a
ranking certifying the dependency graph acyclic, dependency checking and
sorting produces a sequence whose modIds are a permutation of the
registered keys and in which every required dependency appears strictly
before every entry that requires it.  The sequence is a function of the
input state (the embedding is deterministic by construction); ties are
broken by emitting the earliest-registered ready entry at each step, which
— as the counterexample shows — does not make every unrelated pair appear
in registration order. -/
theorem C1_amended_dependencies_precede (st : HandlerState) (rank : Nat → Nat)
    (hkeys : (st.loadingEntries.map (fun p => p.1)).Nodup)
    (hids : ∀ p ∈ st.loadingEntries, p.2.modInfo.modid = p.1)
    (hvalid : ∀ p ∈ st.loadingEntries, p.2.isValid = true)
    (hsat : ∀ p ∈ st.loadingEntries, ∀ pair ∈ p.2.modInfo.dependencies,
      ∃ de, assocLookup st.loadingEntries pair.1 = some de ∧ de.isValid = true ∧
        pair.2.matchesVersion de.modInfo.version = true)
    (hmark : "@ORDER:LAST" ∉ st.loadingEntries.map (fun p => p.1))
    (hrank : ∀ e ∈ (buildSortGraph st).2.edges, rank e.2 < rank e.1)
    (hsorted0 : st.sortedModLoadList = []) :
    ((checkDependencies st).sortedModLoadList.map (fun e => e.modInfo.modid)).Perm
      (st.loadingEntries.map (fun p => p.1)) ∧
    ∀ p ∈ st.loadingEntries, ∀ pair ∈ p.2.modInfo.dependencies,
      ∃ i j : Nat, i < j ∧
        ((checkDependencies st).sortedModLoadList.map (fun e => e.modInfo.modid))[i]?
          = some pair.1 ∧
        ((checkDependencies st).sortedModLoadList.map (fun e => e.modInfo.modid))[j]?
          = some p.1 := by
  have hmiss : (buildSortGraph st).1 = [] := by
    unfold buildSortGraph
    apply iterateAllDependencies_missing_keep
    intro e he pair hpair
    obtain ⟨p, hp, rfl⟩ := List.mem_map.mp he
    exact hsat p hp pair hpair
  have hnodes : (buildSortGraph st).2.nodes = List.range' 1 st.loadingEntries.length := by
    unfold buildSortGraph
    rw [iterateAllDependencies_nodes]
    show graphNodesOf (st.loadingEntries.map (fun p => p.1)) = _
    rw [graphNodesOf_eq, List.length_map]
  obtain ⟨out, hout⟩ : ∃ out, topologicalSort (buildSortGraph st).2 = .ok out := by
    unfold topologicalSort
    apply topologicalSortAux_success _ rank _ _ _ (Nat.le_refl _)
    intro n _ d hd _
    exact hrank (n, d) ((DirectedGraph.mem_deps _ _ _).mp hd)
  have hperm : out.Perm (buildSortGraph st).2.nodes := by
    have := topologicalSortAux_perm (buildSortGraph st).2.deps _ [] _ out hout
    simpa using this
  have hsound := topologicalSortAux_sound (buildSortGraph st).2.deps
    (buildSortGraph st).2.nodes.length [] (buildSortGraph st).2.nodes out
    (by intro a ha; cases ha) (by intro a ha; cases ha) List.Pairwise.nil hout
  have hnomark : ∀ (k : String) (e : FModLoadingEntry),
      assocLookup st.loadingEntries k = some e → hasOrderLastMark e = false := by
    intro k e hke
    have hmem := assocLookup_some_mem _ _ _ hke
    unfold hasOrderLastMark
    rw [assocLookup_none_of_keys]
    · rfl
    · intro pr hpr hcontra
      obtain ⟨de, hde, _, _⟩ := hsat (k, e) hmem pr hpr
      have hdm := assocLookup_some_mem _ _ _ hde
      apply hmark
      rw [← hcontra]
      exact List.mem_map_of_mem _ hdm
  have hmarker : ∀ m : Nat,
      hasOrderLastMark (entryByIndex (modByIndexOf (st.loadingEntries.map (fun p => p.1)))
        st.loadingEntries m) = false := by
    intro m
    unfold entryByIndex
    cases hke : assocLookup st.loadingEntries
        ((assocLookup (modByIndexOf (st.loadingEntries.map (fun p => p.1))) m).getD "") with
    | none => rfl
    | some e => exact hnomark _ e hke
  have hfin : finalizeSortingResults (modByIndexOf (st.loadingEntries.map (fun p => p.1)))
      st.loadingEntries out = out := by
    unfold finalizeSortingResults
    have hfl : (List.range out.length).filter (fun i =>
        hasOrderLastMark (entryByIndex (modByIndexOf (st.loadingEntries.map (fun p => p.1)))
          st.loadingEntries (out.getD i 0))) = [] := by
      rw [List.filter_eq_nil_iff]
      intro a _
      rw [hmarker]
      simp
    rw [hfl]
    rfl
  have hcheck : (checkDependencies st).sortedModLoadList =
      out.map (entryByIndex (modByIndexOf (st.loadingEntries.map (fun p => p.1)))
        st.loadingEntries) := by
    unfold checkDependencies
    simp only [hmiss, List.isEmpty_nil, Bool.not_true, Bool.false_eq_true, if_false]
    rw [hout]
    dsimp only
    rw [hfin, hsorted0]
    unfold populateSortedModList
    simp
  have hEBI : ∀ (j : Nat) (p : String × FModLoadingEntry), st.loadingEntries[j]? = some p →
      entryByIndex (modByIndexOf (st.loadingEntries.map (fun q => q.1))) st.loadingEntries
        (j + 1) = p.2 := by
    intro j p hj
    have hkj : (st.loadingEntries.map (fun q => q.1))[j]? = some p.1 := by
      rw [List.getElem?_map, hj]
      rfl
    unfold entryByIndex
    rw [modByIndexOf_lookup _ j, hkj]
    simp only [Option.getD_some]
    rw [assocLookup_of_getElem st.loadingEntries j p hkeys hj]
    rfl
  have hidx : ∀ (j : Nat) (p : String × FModLoadingEntry), st.loadingEntries[j]? = some p →
      assocLookup (modIndicesOf (st.loadingEntries.map (fun q => q.1))) p.1 = some (j + 1) := by
    intro j p hj
    apply modIndicesOf_lookup _ _ _ hkeys
    rw [List.getElem?_map, hj]
    rfl
  constructor
  · rw [hcheck, List.map_map]
    have hmapeq : (buildSortGraph st).2.nodes.map
        ((fun e => e.modInfo.modid) ∘
          entryByIndex (modByIndexOf (st.loadingEntries.map (fun p => p.1)))
            st.loadingEntries)
        = st.loadingEntries.map (fun p => p.1) := by
      apply List.ext_getElem?
      intro i
      rw [List.getElem?_map, hnodes]
      by_cases hi : i < st.loadingEntries.length
      · rw [List.getElem?_range' 1 1 hi]
        have hpe : st.loadingEntries[i]? = some st.loadingEntries[i] :=
          List.getElem?_eq_getElem hi
        have h1 : 1 + 1 * i = i + 1 := by omega
        rw [h1]
        rw [Option.map_some']
        rw [Function.comp_apply]
        rw [hEBI i (st.loadingEntries[i]) hpe]
        rw [hids (st.loadingEntries[i]) (List.getElem_mem hi)]
        rw [List.getElem?_map, hpe]
        rfl
      · have h1 : (List.range' 1 st.loadingEntries.length)[i]? = none := by
          rw [List.getElem?_eq_none]
          simp only [List.length_range']
          omega
        have h2 : (st.loadingEntries.map (fun p => p.1))[i]? = none := by
          rw [List.getElem?_eq_none]
          rw [List.length_map]
          omega
        rw [h1, h2]
        rfl
    have := List.Perm.map ((fun e => e.modInfo.modid) ∘
      entryByIndex (modByIndexOf (st.loadingEntries.map (fun p => p.1))) st.loadingEntries)
      hperm
    rw [hmapeq] at this
    exact this
  · intro p hp pair hpair
    obtain ⟨jp, hjp⟩ := List.mem_iff_getElem?.mp hp
    obtain ⟨de, hde, hdev, hdem⟩ := hsat p hp pair hpair
    have hdemem := assocLookup_some_mem _ _ _ hde
    obtain ⟨jd, hjd⟩ := List.mem_iff_getElem?.mp hdemem
    have hdid : de.modInfo.modid = pair.1 := hids (pair.1, de) hdemem
    have hedge : (jp + 1, jd + 1) ∈ (buildSortGraph st).2.edges := by
      have hmm := iterateAllDependencies_edges_mem st.loadingEntries
        (modIndicesOf (st.loadingEntries.map (fun q => q.1)))
        (st.loadingEntries.map (fun q => q.2)) []
        { nodes := graphNodesOf (st.loadingEntries.map (fun q => q.1)), edges := [] }
        p.2 pair de (List.mem_map_of_mem _ hp) hpair hde hdev hdem
      rw [hids p hp, hidx jp p hjp, hdid, hidx jd (pair.1, de) hjd] at hmm
      unfold buildSortGraph
      simpa using hmm
    have hjplen : jp < st.loadingEntries.length := (List.getElem?_eq_some.mp hjp).1
    have hjdlen : jd < st.loadingEntries.length := (List.getElem?_eq_some.mp hjd).1
    have hnp : (jp + 1) ∈ out := by
      rw [hperm.mem_iff, hnodes, List.mem_range'_1]
      omega
    have hnd : (jd + 1) ∈ out := by
      rw [hperm.mem_iff, hnodes, List.mem_range'_1]
      omega
    obtain ⟨posj, hposj⟩ := List.mem_iff_getElem?.mp hnp
    obtain ⟨posi, hposi⟩ := List.mem_iff_getElem?.mp hnd
    have hdepmem : (jd + 1) ∈ (buildSortGraph st).2.deps (jp + 1) :=
      (DirectedGraph.mem_deps _ _ _).mpr hedge
    have hneq : jp + 1 ≠ jd + 1 := by
      intro hx
      exact hsound.2 (jp + 1) hnp (hx ▸ hdepmem)
    have hlt : posi < posj := by
      rcases Nat.lt_trichotomy posi posj with h | h | h
      · exact h
      · exfalso
        apply hneq
        rw [h] at hposi
        rw [hposj] at hposi
        exact Option.some.inj hposi
      · exfalso
        have hpw := List.pairwise_iff_getElem.mp hsound.1
        obtain ⟨hposjlt, hgetj⟩ := List.getElem?_eq_some.mp hposj
        obtain ⟨hposilt, hgeti⟩ := List.getElem?_eq_some.mp hposi
        have hcontra := hpw posj posi hposjlt hposilt h
        rw [hgetj, hgeti] at hcontra
        exact hcontra hdepmem
    refine ⟨posi, posj, hlt, ?_, ?_⟩
    · rw [hcheck, List.map_map, List.getElem?_map, hposi]
      rw [Option.map_some']
      rw [Function.comp_apply]
      rw [hEBI jd (pair.1, de) hjd]
      rw [hdid]
    · rw [hcheck, List.map_map, List.getElem?_map, hposj]
      rw [Option.map_some']
      rw [Function.comp_apply]
      rw [hEBI jp p hjp]
      rw [hids p hp]

/-- C1 witness: the amended theorem applied at the concrete three-entry
state of the counterexample, with the explicit ranking n ↦ 4 − n
certifying that its single edge (1, 3) is acyclic. -/
theorem C1_amended_dependencies_precede_witness :
    ((checkDependencies c1state).sortedModLoadList.map (fun e => e.modInfo.modid)).Perm
      (c1state.loadingEntries.map (fun p => p.1)) := by
  have hsat : ∀ p ∈ c1state.loadingEntries, ∀ pair ∈ p.2.modInfo.dependencies,
      ∃ de, assocLookup c1state.loadingEntries pair.1 = some de ∧ de.isValid = true ∧
        pair.2.matchesVersion de.modInfo.version = true := by
    intro p hp pair hpair
    fin_cases hp
    · fin_cases hpair
      exact ⟨c1entryC, rfl, rfl, rfl⟩
    · fin_cases hpair
    · fin_cases hpair
  have hrank : ∀ e ∈ (buildSortGraph c1state).2.edges,
      (fun n => 4 - n) e.2 < (fun n => 4 - n) e.1 := by
    intro e he
    have hedges : (buildSortGraph c1state).2.edges = [(1, 3)] := by decide
    rw [hedges, List.mem_singleton] at he
    subst he
    decide
  exact (C1_amended_dependencies_precede c1state (fun n => 4 - n) (by decide) (by decide)
    (by decide) hsat (by decide) hrank rfl).1

/-- C1 (counterexample): registration order A, B, C with the single
dependency A → C (all entries valid, no required dependency missing — the
fatal list is empty — and the edge set [(1, 3)] is acyclic).  Entries A
(node 1) and B (node 2) have no ordering relationship in either direction,
yet the produced sequence is [B, C, A]: B appears before A, not in their
registration order A-before-B, because after emitting B the sort must
place C before A. -/
theorem C1_counterexample_tie_not_registration_order :
    (checkDependencies c1state).sortedModLoadList.map (fun e => e.modInfo.modid)
      = ["B", "C", "A"] ∧
    (buildSortGraph c1state).1 = [] ∧
    (buildSortGraph c1state).2.edges = [(1, 3)] ∧
    reachableWithin [(1, 3)] 3 1 2 = false ∧
    reachableWithin [(1, 3)] 3 2 1 = false := by
  refine ⟨by decide, by decide, by decide, by decide, by decide⟩

end SMLVerify
